import Mathlib

/-!
Shallow embedding of the serio serialization library (TypeScript) in Lean 4.

Conventions of the embedding:
* A Node `Buffer` is modelled as a `List Nat` of byte values.
* Machine integers are modelled as `Int` / `Nat` with explicit `% 2 ^ w`
  where overflow matters.
* TypeScript methods that may throw are modelled with `Except SError`.
* Methods that mutate `this` are modelled in state-passing style: the
  updated state is part of the result.  Methods whose bodies perform no
  assignment (such as `serialize`) return the state unchanged.
* The external `TextCodec` capability (iconv-lite) is out of scope of the
  spec; string values are therefore represented by their already-encoded
  byte sequences (a single-byte text encoding), so `encodeString` and
  `decodeString` are identities on those byte lists.
-/

namespace Serio

/-! ## Errors

Source: `Error`, `SArrayError` (serializable-strings.ts, second section,
lines 283-300) and `SObjectError` (serializable-objects.ts, lines 245-258).
An `SArrayError` carries the zero-based element index and the original
error as `cause`; an `SObjectError` carries the property key and `cause`.
-/

inductive SError where
  | base (message : String)
  | sarray (index : Nat) (message : String) (cause : SError)
  | sobject (propertyKey : String) (message : String) (cause : SError)
deriving Repr, DecidableEq

/-- The `message` property of a thrown error. -/
def SError.message : SError → String
  | .base m => m
  | .sarray _ m _ => m
  | .sobject _ m _ => m

/-! ## Byte-level primitives

Models of the Node `Buffer.prototype.readUIntXX` / `writeUIntXX` family
used by `createSerializableScalarWrapperClass` (serializable-scalars.ts).
`writeUIntLEBytes w v` lists the `w` little-endian bytes of `v`;
big-endian variants are the reverse.
-/

/-- The `w` little-endian base-256 digits of `v`. -/
def writeUIntLEBytes : Nat → Nat → List Nat
  | 0, _ => []
  | w + 1, v => v % 256 :: writeUIntLEBytes w (v / 256)

/-- Reassemble a little-endian byte list into a natural number. -/
def readUIntLEBytes : List Nat → Nat
  | [] => 0
  | b :: rest => b + 256 * readUIntLEBytes rest

theorem writeUIntLEBytes_length (w v : Nat) : (writeUIntLEBytes w v).length = w := by
  induction w generalizing v with
  | zero => rfl
  | succ w ih => simp [writeUIntLEBytes, ih]

theorem readUIntLEBytes_writeUIntLEBytes (w v : Nat) (h : v < 256 ^ w) :
    readUIntLEBytes (writeUIntLEBytes w v) = v := by
  induction w generalizing v with
  | zero => simp [writeUIntLEBytes, readUIntLEBytes]; omega
  | succ w ih =>
    have hdiv : v / 256 < 256 ^ w := by
      rw [Nat.div_lt_iff_lt_mul (by norm_num)]
      calc v < 256 ^ (w + 1) := h
        _ = 256 ^ w * 256 := by rw [pow_succ]
    simp only [writeUIntLEBytes, readUIntLEBytes, ih (v / 256) hdiv]
    omega

/-! ## Scalar codecs

Source: `createSerializableScalarWrapperClass` (serializable-scalars.ts,
lines 126-186).  Each scalar type is determined by its byte width,
signedness and endianness; `deserialize` reads exactly `serializedLength`
bytes via the matching Node read primitive, `serialize` allocates exactly
`serializedLength` bytes and writes via the matching primitive.  The Node
write primitives range-check the value (ERR_OUT_OF_RANGE on violation)
and the read primitives range-check the buffer length; both are modelled
as `Except` errors.
-/

structure ScalarSpec where
  serializedLength : Nat
  signed : Bool
  littleEndian : Bool
deriving Repr, DecidableEq

/-- Smallest value accepted by the Node write primitive of this scalar. -/
def scalarMinValue (sp : ScalarSpec) : Int :=
  if sp.signed then -(2 ^ (8 * sp.serializedLength - 1)) else 0

/-- Largest value accepted by the Node write primitive of this scalar. -/
def scalarMaxValue (sp : ScalarSpec) : Int :=
  if sp.signed then 2 ^ (8 * sp.serializedLength - 1) - 1 else 2 ^ (8 * sp.serializedLength) - 1

/-- `SerializableScalarWrapperClass.serialize`: allocates `serializedLength`
bytes and writes the current value via the Node write primitive, which
throws when the value is out of the representable range. -/
def scalarSerialize (sp : ScalarSpec) (value : Int) : Except SError (List Nat) :=
  if value < scalarMinValue sp ∨ scalarMaxValue sp < value then
    .error (.base "The value of value is out of range")
  else
    let u : Nat := ((value % ((2 : Int) ^ (8 * sp.serializedLength))).toNat)
    .ok (if sp.littleEndian then writeUIntLEBytes sp.serializedLength u
         else (writeUIntLEBytes sp.serializedLength u).reverse)

/-- Interpretation of the raw base-256 digits read by a Node read primitive:
an `Int` primitive interprets a high leading bit as a negative value in
two's complement, a `UInt` primitive reads the digits as they are. -/
def scalarDecodeValue (sp : ScalarSpec) (u : Nat) : Int :=
  if sp.signed ∧ 2 ^ (8 * sp.serializedLength - 1) ≤ u then
    (u : Int) - 2 ^ (8 * sp.serializedLength)
  else (u : Int)

/-- `SerializableScalarWrapperClass.deserialize`: reads `serializedLength`
bytes from the front of the buffer via the Node read primitive, which
throws when the buffer is too short.  Returns the decoded value and the
number of bytes consumed. -/
def scalarDeserialize (sp : ScalarSpec) (buffer : List Nat) : Except SError (Int × Nat) :=
  if buffer.length < sp.serializedLength then
    .error (.base "Attempt to access memory outside buffer bounds")
  else
    let bytes := buffer.take sp.serializedLength
    let u := readUIntLEBytes (if sp.littleEndian then bytes else bytes.reverse)
    .ok (scalarDecodeValue sp u, sp.serializedLength)

/-- `SerializableScalarWrapperClass.getSerializedLength`: the constant width. -/
def scalarGetSerializedLength (sp : ScalarSpec) : Nat :=
  sp.serializedLength

/-- `SUInt8` (serializable-scalars.ts): unsigned 8-bit integer. -/
def SUInt8 : ScalarSpec := ⟨1, false, true⟩

/-- `SInt8`: signed 8-bit integer. -/
def SInt8 : ScalarSpec := ⟨1, true, true⟩

/-- `SUInt16BE`: unsigned 16-bit integer, big endian. -/
def SUInt16BE : ScalarSpec := ⟨2, false, false⟩

/-- `SUInt16LE`: unsigned 16-bit integer, little endian. -/
def SUInt16LE : ScalarSpec := ⟨2, false, true⟩

/-- `SInt16BE`: signed 16-bit integer, big endian. -/
def SInt16BE : ScalarSpec := ⟨2, true, false⟩

/-- `SInt16LE`: signed 16-bit integer, little endian. -/
def SInt16LE : ScalarSpec := ⟨2, true, true⟩

/-- `SUInt32BE`: unsigned 32-bit integer, big endian. -/
def SUInt32BE : ScalarSpec := ⟨4, false, false⟩

/-- `SUInt32LE`: unsigned 32-bit integer, little endian. -/
def SUInt32LE : ScalarSpec := ⟨4, false, true⟩

/-- `SInt32BE`: signed 32-bit integer, big endian. -/
def SInt32BE : ScalarSpec := ⟨4, true, false⟩

/-- `SInt32LE`: signed 32-bit integer, little endian. -/
def SInt32LE : ScalarSpec := ⟨4, true, true⟩

example : scalarSerialize SUInt8 37 = .ok [37] := rfl
example : scalarSerialize SUInt16BE 258 = .ok [1, 2] := rfl
example : scalarSerialize SUInt16LE 258 = .ok [2, 1] := rfl
example : scalarSerialize SInt8 (-1) = .ok [255] := rfl
example : scalarDeserialize SInt8 [255] = .ok (-1, 1) := rfl
example : scalarSerialize SUInt8 256 = .error (.base "The value of value is out of range") := rfl

/-! ## String codecs

Source: `SStringNT` and `SString` (serializable.ts, second section,
lines 52-141).  The state of a string wrapper is its current value --
represented here by its encoded byte sequence under the ambient text
encoding (the external `TextCodec` is out of the spec's scope) -- and the
optional fixed serialized size `length`.  JavaScript truthiness applies to
`if (this.length)` and `this.length || ...`: an absent length and a zero
length both select the dynamic branch.
-/

structure SStringNTState where
  value : List Nat
  length : Option Nat
deriving Repr, DecidableEq

/-- Index of the first zero byte, or the list's length if there is none.
Models the null-scan of `SmartBuffer.readBufferNT`. -/
def firstZeroIdx : List Nat → Nat
  | [] => 0
  | b :: rest => if b = 0 then 0 else firstZeroIdx rest + 1

/-- `SStringNT.serialize`.  Fixed size `N` (truthy): an `N`-byte zeroed
buffer receives the encoded value truncated to `N - 1` bytes followed by a
null terminator.  Dynamic: the encoded value followed by a null terminator. -/
def sStringNTSerialize (s : SStringNTState) : List Nat :=
  if s.length.getD 0 ≠ 0 then
    let N := s.length.getD 0
    let t := s.value.take (N - 1)
    t ++ 0 :: List.replicate (N - t.length - 1) 0
  else
    s.value ++ [0]

/-- `SStringNT.deserialize`.  Fixed size `N` (truthy): reads within the
first `N` bytes, takes everything before the first null, and consumes the
window's length.  Dynamic: takes everything before the first null and
consumes one byte past it (`SmartBuffer.readBufferNT` sets the read offset
to the null position plus one even when no null is found). -/
def sStringNTDeserialize (s : SStringNTState) (buffer : List Nat) : SStringNTState × Nat :=
  if s.length.getD 0 ≠ 0 then
    let window := buffer.take (s.length.getD 0)
    ({ s with value := window.take (firstZeroIdx window) }, window.length)
  else
    ({ s with value := buffer.take (firstZeroIdx buffer) }, firstZeroIdx buffer + 1)

/-- `SStringNT.getSerializedLength`: `this.length || encoded.length + 1`. -/
def sStringNTGetSerializedLength (s : SStringNTState) : Nat :=
  if s.length.getD 0 ≠ 0 then s.length.getD 0 else s.value.length + 1

structure SStringState where
  value : List Nat
  length : Option Nat
deriving Repr, DecidableEq

/-- `SString.serialize`.  Fixed size `N` (truthy): an `N`-byte zeroed buffer
receives the encoded value truncated to `N` bytes (no terminator).
Dynamic: exactly the encoded value. -/
def sStringSerialize (s : SStringState) : List Nat :=
  if s.length.getD 0 ≠ 0 then
    let N := s.length.getD 0
    let t := s.value.take N
    t ++ List.replicate (N - t.length) 0
  else
    s.value

/-- `SString.deserialize`.  Fixed size `N` (truthy): reads exactly the first
`N` bytes (clamped to the buffer) with no terminator search.  Dynamic:
consumes the entire buffer. -/
def sStringDeserialize (s : SStringState) (buffer : List Nat) : SStringState × Nat :=
  if s.length.getD 0 ≠ 0 then
    let window := buffer.take (s.length.getD 0)
    ({ s with value := window }, window.length)
  else
    ({ s with value := buffer }, buffer.length)

/-- `SString.getSerializedLength`: `this.length || encoded.length`. -/
def sStringGetSerializedLength (s : SStringState) : Nat :=
  if s.length.getD 0 ≠ 0 then s.length.getD 0 else s.value.length

example : sStringNTSerialize ⟨[104, 101, 108, 108, 111], some 5⟩ = [104, 101, 108, 108, 0] := rfl
example : sStringNTSerialize ⟨[104, 105], none⟩ = [104, 105, 0] := rfl
example : (sStringNTDeserialize ⟨[], some 5⟩ [104, 101, 108, 108, 0, 7, 7]).1.value = [104, 101, 108, 108] := rfl
example : sStringSerialize ⟨[104, 105], some 5⟩ = [104, 105, 0, 0, 0] := rfl
example : (sStringDeserialize ⟨[], some 5⟩ [104, 105, 0, 0, 0, 7]).1.value = [104, 105, 0, 0, 0] := rfl

/-! ## Buffer codecs

Source: `SBuffer` and `SDynamicBuffer` (unnamed part 005, second section).
`SBuffer.deserialize` copies the entire input buffer into a fresh
allocation; `SBuffer.serialize` returns `this.value` itself.  At the level
of byte contents (used for the round-trip and sizing claims) both are
modelled on `List Nat`; the reference-level model used for the aliasing
claim follows below.
-/

structure SBufferState where
  value : List Nat
deriving Repr, DecidableEq

/-- `SBuffer.serialize`: returns the stored bytes (`return this.value`). -/
def sBufferSerialize (s : SBufferState) : List Nat :=
  s.value

/-- `SBuffer.deserialize`: copies the entire input buffer and returns its
length as the bytes consumed. -/
def sBufferDeserialize (_s : SBufferState) (buffer : List Nat) : SBufferState × Nat :=
  (⟨buffer⟩, buffer.length)

/-- `SBuffer.getSerializedLength`: the stored byte count. -/
def sBufferGetSerializedLength (s : SBufferState) : Nat :=
  s.value.length

/-- Reference-level model of `SBuffer` for the ownership claim: the state
holds a reference (heap address) to the stored `Buffer` object, and a heap
maps references to byte contents.  `serialize() { return this.value; }`
returns the stored reference itself. -/
structure SBufferRefState where
  valueRef : Nat
deriving Repr, DecidableEq

def Heap : Type := Nat → List Nat

/-- Mutate one byte of the buffer object at reference `ref` in the heap. -/
def heapWrite (h : Heap) (ref idx byte : Nat) : Heap :=
  fun r => if r = ref then (h ref).set idx byte else h r

/-- Reference-level `SBuffer.serialize`: the returned `Buffer` is the very
object stored in `this.value`. -/
def sBufferSerializeRef (s : SBufferRefState) : Nat :=
  s.valueRef

/-- `SDynamicBuffer` with a `lengthType` scalar codec: `serialize` writes
the length prefix (range-checked by the scalar write primitive) followed
by the stored bytes. -/
def sDynamicBufferSerialize (lengthType : ScalarSpec) (s : SBufferState) :
    Except SError (List Nat) :=
  match scalarSerialize lengthType s.value.length with
  | .error e => .error e
  | .ok lengthBytes => .ok (lengthBytes ++ s.value)

/-- `SDynamicBuffer.deserialize`: decodes the length prefix `N`, then takes
`buffer.subarray(readOffset, readOffset + N)` as the blob -- Node's
`subarray` clamps to the end of the buffer -- and returns `readOffset + N`
as the bytes consumed. -/
def sDynamicBufferDeserialize (lengthType : ScalarSpec) (buffer : List Nat) :
    Except SError (SBufferState × Nat) :=
  match scalarDeserialize lengthType buffer with
  | .error e => .error e
  | .ok (n, readOffset) => .ok (⟨(buffer.drop readOffset).take n.toNat⟩, readOffset + n.toNat)

/-- `SDynamicBuffer.getSerializedLength`: prefix width plus blob length. -/
def sDynamicBufferGetSerializedLength (lengthType : ScalarSpec) (s : SBufferState) : Nat :=
  lengthType.serializedLength + s.value.length

example : sDynamicBufferSerialize SUInt16BE ⟨[9, 9, 9]⟩ = .ok [0, 3, 9, 9, 9] := rfl
example : sDynamicBufferDeserialize SUInt16BE [0, 3, 9, 9, 9, 7] = .ok (⟨[9, 9, 9]⟩, 5) := rfl

/-! ## Array elements

The `Serializable` values an `SArray` can hold.  The universe used here
consists of the scalar wrappers (which are `SerializableWrapper`
subclasses) and `ThrowingSerializable` (src/tests/throwing-serializable.ts:
a `Serializable` whose `deserialize` / `serialize` / `toJSON` throw an
`Error` with a configurable message and whose `getSerializedLength`
returns 1).
-/

inductive Elem where
  | scalar (sp : ScalarSpec) (value : Int)
  | throwing (errorMessage : String)
deriving Repr, DecidableEq

/-- The constructor (class) of an element, used by `SArray.ofLength` to
default-construct padding elements (`new elementType()`). -/
inductive ElemType where
  | scalarTy (sp : ScalarSpec)
  | throwingTy (errorMessage : String)
deriving Repr, DecidableEq

/-- `new elementType()`: scalar wrappers start at their `defaultValue` 0. -/
def newElem : ElemType → Elem
  | .scalarTy sp => .scalar sp 0
  | .throwingTy m => .throwing m

def elemSerialize : Elem → Except SError (List Nat)
  | .scalar sp v => scalarSerialize sp v
  | .throwing m => .error (.base m)

def elemDeserialize (e : Elem) (buffer : List Nat) : Except SError (Elem × Nat) :=
  match e with
  | .scalar sp _ =>
    match scalarDeserialize sp buffer with
    | .error err => .error err
    | .ok (v, n) => .ok (.scalar sp v, n)
  | .throwing m => .error (.base m)

def elemGetSerializedLength : Elem → Except SError Nat
  | .scalar sp _ => .ok sp.serializedLength
  | .throwing _ => .ok 1

/-- JSON values produced by the elements of this universe. -/
inductive JsonVal where
  | jnum (value : Int)
deriving Repr, DecidableEq

def elemToJSON : Elem → Except SError JsonVal
  | .scalar _ v => .ok (.jnum v)
  | .throwing m => .error (.base m)

/-- The `value` property of a wrapper element. -/
def elemValue : Elem → Int
  | .scalar _ v => v
  | .throwing _ => 0

/-- `instanceof SerializableWrapper`: scalar wrappers are wrappers,
`ThrowingSerializable` extends `Serializable` directly. -/
def elemIsWrapper : Elem → Bool
  | .scalar _ _ => true
  | .throwing _ => false

/-! ## SArray

Source: `SArray` and `mapSArray` (serializable-strings.ts, second section,
lines 82-202).  The state holds the stored element sequence plus the
optional fixed size and element constructor of `SArray.ofLength` classes
(the source documents that `elementType` is present exactly when `length`
is; an `ofLength` view that would call an absent constructor is modelled
as a throwing element, mirroring the JavaScript `TypeError`).
-/

structure SArrayState where
  value : List Elem
  length : Option Nat
  elementType : Option ElemType
deriving Repr, DecidableEq

/-- The derived element view used by `mapSArray`: pad with
default-constructed elements when the stored sequence is short of the
fixed length, truncate to the fixed length when it is longer, and use the
stored sequence as-is otherwise (or when dynamically sized). -/
def sArrayView (s : SArrayState) : List Elem :=
  match s.length with
  | none => s.value
  | some N =>
    if s.value.length < N then
      s.value ++ List.replicate (N - s.value.length)
        (newElem (s.elementType.getD (.throwingTy "TypeError: elementType is not a constructor")))
    else if N < s.value.length then
      s.value.take N
    else
      s.value

/-- The indexed error thrown by `mapSArray` around a failing element:
message `Error at element {index}: {cause.message}`, with the zero-based
index and the original error as cause. -/
def wrapElemError (i : Nat) (e : SError) : SError :=
  .sarray i ("Error at element " ++ toString i ++ ": " ++ e.message) e

/-- `mapSArray`: applies `fn` to each element of the view in order,
wrapping any thrown error with the element's index.  `i` is the index of
the first element of the remaining list. -/
def mapSArrayGo {α : Type} (fn : Elem → Nat → Except SError α) :
    List Elem → Nat → Except SError (List α)
  | [], _ => .ok []
  | e :: rest, i =>
    match fn e i with
    | .error err => .error (wrapElemError i err)
    | .ok a =>
      match mapSArrayGo fn rest (i + 1) with
      | .error err => .error err
      | .ok l => .ok (a :: l)

/-- `SArray.serialize`: `Buffer.concat(mapSArray(this, (el) => el.serialize(opts)))`. -/
def sArraySerialize (s : SArrayState) : Except SError (List Nat) :=
  match mapSArrayGo (fun e _ => elemSerialize e) (sArrayView s) 0 with
  | .error err => .error err
  | .ok chunks => .ok chunks.flatten

/-- `SArray.serialize` in state-passing form: the method body performs no
assignment to `this.value`, so the post-state is the input state (the
padded / truncated view is not persisted). -/
def sArraySerializeS (s : SArrayState) : Except SError (List Nat × SArrayState) :=
  match sArraySerialize s with
  | .error err => .error err
  | .ok bytes => .ok (bytes, s)

/-- `SArray.getSerializedLength`: `sum(mapSArray(this, (el) => el.getSerializedLength(opts)))`. -/
def sArrayGetSerializedLength (s : SArrayState) : Except SError Nat :=
  match mapSArrayGo (fun e _ => elemGetSerializedLength e) (sArrayView s) 0 with
  | .error err => .error err
  | .ok lengths => .ok lengths.sum

/-- `SArray.getSerializedLength` in state-passing form (no assignment in
the source method, so the state is unchanged). -/
def sArrayGetSerializedLengthS (s : SArrayState) : Except SError (Nat × SArrayState) :=
  match sArrayGetSerializedLength s with
  | .error err => .error err
  | .ok n => .ok (n, s)

/-- `SArray.toJSON`: `mapSArray(this, toJSON)`. -/
def sArrayToJSON (s : SArrayState) : Except SError (List JsonVal) :=
  mapSArrayGo (fun e _ => elemToJSON e) (sArrayView s) 0

/-- The loop of `SArray.deserialize`: each view element deserializes from
`buffer.slice(offset)` (errors are wrapped with the index), elements at
indices at or beyond the stored length are pushed, elements below it are
mutated in place.  Returns the decoded view elements and the final offset. -/
def sArrayDeserializeGo :
    List Elem → List Nat → Nat → Nat → Except SError (List Elem × Nat)
  | [], _, offset, _ => .ok ([], offset)
  | e :: rest, buffer, offset, i =>
    match elemDeserialize e (buffer.drop offset) with
    | .error err => .error (wrapElemError i err)
    | .ok (e2, n) =>
      match sArrayDeserializeGo rest buffer (offset + n) (i + 1) with
      | .error err => .error err
      | .ok (l, finalOffset) => .ok (e2 :: l, finalOffset)

/-- `SArray.deserialize`.  The stored sequence after the call: the decoded
view elements occupy the first `view.length` positions (in-place mutation
of existing elements, pushes of padding elements), and any stored elements
beyond the view (present when the stored length exceeds the fixed length)
are untouched. -/
def sArrayDeserialize (s : SArrayState) (buffer : List Nat) :
    Except SError (SArrayState × Nat) :=
  match sArrayDeserializeGo (sArrayView s) buffer 0 0 with
  | .error err => .error err
  | .ok (decoded, offset) =>
    .ok ({ s with value := decoded ++ s.value.drop decoded.length }, offset)

/-- `SArray.of(values)`: a dynamically sized array holding `values`. -/
def SArray.of (l : List Elem) : SArrayState :=
  ⟨l, none, none⟩

/-- `new (SArray.ofLength(N, elementType))()`: the default instance holds
`N` default-constructed elements. -/
def SArray.ofLengthNew (N : Nat) (ty : ElemType) : SArrayState :=
  ⟨List.replicate N (newElem ty), some N, some ty⟩

/-- `SArray.ofLength(N, elementType).of(values)` (also reached by assigning
`value` on an `ofLength` instance). -/
def SArray.ofLengthOf (N : Nat) (ty : ElemType) (l : List Elem) : SArrayState :=
  ⟨l, some N, some ty⟩

example : sArraySerialize (SArray.ofLengthOf 3 (.scalarTy SInt8) []) = .ok [0, 0, 0] := rfl
example : sArraySerialize (SArray.of [.scalar SUInt16BE 300, .scalar SInt8 (-2)]) = .ok [1, 44, 254] := rfl
example :
    sArrayDeserialize (SArray.ofLengthNew 3 (.scalarTy SInt8)) [42, 42, 42, 42] =
      .ok (SArray.ofLengthOf 3 (.scalarTy SInt8)
        [.scalar SInt8 42, .scalar SInt8 42, .scalar SInt8 42], 3) := rfl
example :
    sArraySerialize (SArray.of [.scalar SUInt16BE 3, .throwing "test error", .scalar SUInt16BE 100]) =
      .error (.sarray 1 "Error at element 1: test error" (.base "test error")) := rfl

/-! ## SObject

Source: `SObject` (serializable-objects.ts, first section, lines 12-243)
with its per-type metadata.  A field registered with `@field(wrapper)`
stores its plain value in the property; a field registered with `@field()`
stores a `Serializable` directly.  The embedded state carries the
registered field specs (in declaration order) plus the instance's
properties.
-/

structure SObjectFieldSpec where
  propertyKey : String
  wrapperType : Option ScalarSpec
deriving Repr, DecidableEq

inductive PropValue where
  | pInt (value : Int)
  | pSer (e : Elem)
deriving Repr, DecidableEq

structure SObjectState where
  fieldSpecs : List SObjectFieldSpec
  props : List (String × PropValue)
deriving Repr, DecidableEq

/-- JavaScript property assignment on a keyed property list: overwrite the
property if present, append it otherwise. -/
def updateOrAppend {β : Type} (l : List (String × β)) (key : String) (v : β) :
    List (String × β) :=
  if l.any (fun p => p.1 = key) then
    l.map (fun p => if p.1 = key then (key, v) else p)
  else
    l ++ [(key, v)]

def getProp (s : SObjectState) (key : String) : PropValue :=
  (((s.props.find? (fun p => p.1 = key)).map Prod.snd).getD (.pInt 0))

def setProp (s : SObjectState) (key : String) (v : PropValue) : SObjectState :=
  { s with props := updateOrAppend s.props key v }

/-- Reading a property whose static type is the wrapper's value type.  A
well-formed wrapped field holds a plain number. -/
def propAsInt : PropValue → Int
  | .pInt v => v
  | .pSer e => elemValue e

/-- Reading a property used as a `Serializable`.  A plain number used where
a `Serializable` is expected would make JavaScript throw a `TypeError` at
the first method call, modelled as a throwing element. -/
def propAsSer : PropValue → Elem
  | .pSer e => e
  | .pInt _ => .throwing "TypeError: value.serialize is not a function"

/-- `getFieldOrWrapper`: the `Serializable` for a field -- a freshly built
wrapper seeded with the property value for `@field(wrapper)` fields, the
property value itself otherwise. -/
def getFieldOrWrapper (s : SObjectState) (fs : SObjectFieldSpec) : Elem :=
  match fs.wrapperType with
  | some sp => .scalar sp (propAsInt (getProp s fs.propertyKey))
  | none => propAsSer (getProp s fs.propertyKey)

/-- `toSArray`: `SArray.of(fieldSpecs.map(getFieldOrWrapper))`. -/
def sObjectToSArray (s : SObjectState) : SArrayState :=
  SArray.of (s.fieldSpecs.map (getFieldOrWrapper s))

/-- `wrapSArrayErrorAsSObjectError`: an `SArrayError` is re-attributed to
the field name registered at its index, with the original cause; other
errors propagate unchanged. -/
def wrapSArrayErrorAsSObjectError (s : SObjectState) : SError → SError
  | .sarray i _ cause =>
    let key := ((s.fieldSpecs.get? i).map (fun fs => fs.propertyKey)).getD "undefined"
    .sobject key ("Error in field " ++ key ++ ": " ++ cause.message) cause
  | e => e

/-- `SObject.serialize`: delegate to the field `SArray`, re-attributing
indexed errors to field names. -/
def sObjectSerialize (s : SObjectState) : Except SError (List Nat) :=
  match sArraySerialize (sObjectToSArray s) with
  | .error e => .error (wrapSArrayErrorAsSObjectError s e)
  | .ok bytes => .ok bytes

/-- `SObject.getSerializedLength`: delegate to the field `SArray`. -/
def sObjectGetSerializedLength (s : SObjectState) : Except SError Nat :=
  match sArrayGetSerializedLength (sObjectToSArray s) with
  | .error e => .error (wrapSArrayErrorAsSObjectError s e)
  | .ok n => .ok n

/-- The copy-back loop of `SObject.deserialize`: properties of wrapped
fields receive the decoded wrapper's `value` (explicit in the source);
properties of unwrapped fields hold the very element object that the
`SArray` mutated in place, so they hold the decoded element. -/
def sObjectCopyBack : SObjectState → List SObjectFieldSpec → List Elem → SObjectState
  | s, [], _ => s
  | s, _, [] => s
  | s, fs :: restSpecs, e :: restElems =>
    let s2 := match fs.wrapperType with
      | some _ => setProp s fs.propertyKey (.pInt (elemValue e))
      | none => setProp s fs.propertyKey (.pSer e)
    sObjectCopyBack s2 restSpecs restElems

/-- `SObject.deserialize`. -/
def sObjectDeserialize (s : SObjectState) (buffer : List Nat) :
    Except SError (SObjectState × Nat) :=
  match sArrayDeserialize (sObjectToSArray s) buffer with
  | .error e => .error (wrapSArrayErrorAsSObjectError s e)
  | .ok (arr, offset) => .ok (sObjectCopyBack s s.fieldSpecs arr.value, offset)

/-- `SObject.assignSerializableMap` (serializable-objects.ts, lines
184-213).  For each entry: an unregistered key throws an `SObjectError`
wrapping `Unknown property {key}`.  The source then tests
`fieldSpecMap.wrapperType` -- a property access on the whole name-to-spec
map object, which yields the spec of a field literally named
"wrapperType" if one is registered and `undefined` otherwise -- rather
than the matched field's own `wrapperType`.  In the truthy case it
requires a `SerializableWrapper` and assigns its unwrapped `value`; in the
falsy case it assigns the `Serializable` itself. -/
def sObjectAssignSerializableMap :
    SObjectState → List (String × Elem) → Except SError SObjectState
  | s, [] => .ok s
  | s, (key, sval) :: rest =>
    match s.fieldSpecs.find? (fun fs => fs.propertyKey = key) with
    | none =>
      .error (.sobject key ("Error in field " ++ key ++ ": Unknown property " ++ key)
        (.base ("Unknown property " ++ key)))
    | some _ =>
      if (s.fieldSpecs.find? (fun fs => fs.propertyKey = "wrapperType")).isSome then
        if elemIsWrapper sval then
          sObjectAssignSerializableMap (setProp s key (.pInt (elemValue sval))) rest
        else
          .error (.sobject key
            ("Error in field " ++ key ++ ": Expected SerializableWrapper in assignment, got object")
            (.base "Expected SerializableWrapper in assignment, got object"))
      else
        sObjectAssignSerializableMap (setProp s key (.pSer sval)) rest

/-! ## SBitmask

Source: `SBitmask` (unnamed package file, second section, lines 183-310
and the bitfield registry that follows).  A bitmask wraps one scalar
storage codec; its `value` getter packs the bitfields (declared
most-significant first) and its setter unpacks them.  JavaScript `x | 0`
coerces a boolean to 0 / 1 and is the identity on 32-bit integers;
`x & (2^len - 1)` is `x` modulo `2^len` in two's complement; `|=` into
disjoint, previously-zero bit ranges accumulates with bitwise or; `>>`
on the non-negative packed value is division by a power of two.
-/

inductive BitValue where
  | bNum (value : Int)
  | bBool (value : Bool)
deriving Repr, DecidableEq

structure SBitmaskState where
  wrapperType : ScalarSpec
  bitfieldSpecs : List (String × Nat)
  props : List (String × BitValue)
deriving Repr, DecidableEq

def getBitProp (s : SBitmaskState) (key : String) : Option BitValue :=
  (s.props.find? (fun p => p.1 = key)).map Prod.snd

def setBitProp (s : SBitmaskState) (key : String) (v : BitValue) : SBitmaskState :=
  { s with props := updateOrAppend s.props key v }

/-- `(value | 0)`: booleans coerce to 0 / 1, numbers pass through. -/
def bitValueToInt : BitValue → Int
  | .bNum v => v
  | .bBool b => if b then 1 else 0

/-- `validateLength`: the declared bit lengths must sum to eight times the
storage codec's byte width. -/
def sBitmaskValidateLength (s : SBitmaskState) : Bool :=
  (s.bitfieldSpecs.map Prod.snd).sum = 8 * s.wrapperType.serializedLength

def sBitmaskLengthError : SError :=
  .base "Total length of bitfields do not match bitmask length"

/-- The packing loop of the `value` getter, walking the bitfields from
last-declared to first-declared with an accumulating bit offset: each
field value is masked to `2^length - 1` (`((v | 0) & mask)`), shifted left
by the offset, and or-ed into the accumulator.  The argument list is the
reversed declaration list.

The bitwise arithmetic is modelled on unbounded naturals, while JavaScript
evaluates `|`, `&` and `<<` in signed 32-bit arithmetic.  The two coincide
exactly as long as every intermediate stays below `2^31` -- in particular
for any storage codec narrower than 32 bits, since all contributions and
partial accumulators then fit in the total bit width.  (With 32-bit
storage a contribution touching bit 31 wraps negative in JavaScript and
the Node write primitive then rejects the packed value.)  Theorems that
depend on agreement with the JavaScript semantics restrict themselves to
storage narrower than 32 bits. -/
def sBitmaskPackGo (s : SBitmaskState) :
    List (String × Nat) → Nat → Except SError Nat
  | [], _ => .ok 0
  | (key, len) :: rest, offset =>
    match getBitProp s key with
    | none => .error (.base ("Expected property " ++ key ++ " to be a number or boolean"))
    | some bv =>
      let contrib := ((bitValueToInt bv % ((2 : Int) ^ len)).toNat)
      match sBitmaskPackGo s rest (offset + len) with
      | .error e => .error e
      | .ok acc => .ok (acc ||| (contrib <<< offset))

/-- The `value` getter: validate the total bit length, then pack. -/
def sBitmaskGetValue (s : SBitmaskState) : Except SError Nat :=
  if sBitmaskValidateLength s then
    sBitmaskPackGo s s.bitfieldSpecs.reverse 0
  else
    .error sBitmaskLengthError

/-- The unpacking loop of the `value` setter: each field receives
`(newValue >> offset) & (2^length - 1)`, coerced to the property's current
runtime type (number or boolean).

As with the packing loop, the shifts and masks are modelled on unbounded
naturals, whereas JavaScript's `>>` and `&` coerce their operands to
signed 32-bit integers.  The models agree whenever `newValue < 2^31` and
every field is narrower than 32 bits -- in particular for any storage
codec narrower than 32 bits -- and theorems that depend on agreement with
the JavaScript semantics restrict themselves to that domain. -/
def sBitmaskSetGo :
    SBitmaskState → List (String × Nat) → Nat → Nat → Except SError SBitmaskState
  | s, [], _, _ => .ok s
  | s, (key, len) :: rest, offset, newValue =>
    match getBitProp s key with
    | none => .error (.base ("Expected property " ++ key ++ " to be a number or boolean"))
    | some bv =>
      let slice := (newValue >>> offset) &&& (2 ^ len - 1)
      let coerced : BitValue := match bv with
        | .bNum _ => .bNum slice
        | .bBool _ => .bBool (slice ≠ 0)
      sBitmaskSetGo (setBitProp s key coerced) rest (offset + len) newValue

/-- The `value` setter: validate the total bit length, then unpack. -/
def sBitmaskSetValue (s : SBitmaskState) (newValue : Nat) : Except SError SBitmaskState :=
  if sBitmaskValidateLength s then
    sBitmaskSetGo s s.bitfieldSpecs.reverse 0 newValue
  else
    .error sBitmaskLengthError

/-- `SBitmask.serialize`: run the `value` getter and serialize the packed
value via the storage codec. -/
def sBitmaskSerialize (s : SBitmaskState) : Except SError (List Nat) :=
  match sBitmaskGetValue s with
  | .error e => .error e
  | .ok n => scalarSerialize s.wrapperType n

/-- `SBitmask.deserialize`: deserialize the storage codec and run the
`value` setter with the decoded value (unsigned storage codecs yield a
non-negative value). -/
def sBitmaskDeserialize (s : SBitmaskState) (buffer : List Nat) :
    Except SError (SBitmaskState × Nat) :=
  match scalarDeserialize s.wrapperType buffer with
  | .error e => .error e
  | .ok (v, offset) =>
    match sBitmaskSetValue s v.toNat with
    | .error e => .error e
    | .ok s2 => .ok (s2, offset)

/-- `SBitmask.getSerializedLength`: the storage codec's width (no
validation is performed here). -/
def sBitmaskGetSerializedLength (s : SBitmaskState) : Nat :=
  s.wrapperType.serializedLength

/-- The `Color8Bit` bitmask of the test suite: one byte of storage, fields
`r:3, g:3, b:2` declared in that order (most-significant first). -/
def Color8Bit (r g b : Int) : SBitmaskState :=
  ⟨SUInt8, [("r", 3), ("g", 3), ("b", 2)],
    [("r", .bNum r), ("g", .bNum g), ("b", .bNum b)]⟩

example : sBitmaskSerialize (Color8Bit 1 1 1) = .ok [37] := rfl
example : sBitmaskSerialize (Color8Bit 0 0 3) = .ok [3] := rfl
example :
    sBitmaskDeserialize (Color8Bit 0 0 0) [234] =
      .ok (Color8Bit 7 2 2, 1) := rfl

/-! ## Helper lemmas -/

theorem emod_two_pow_toNat_lt (x : Int) (k : Nat) :
    (x % ((2 : Int) ^ k)).toNat < 2 ^ k := by
  have hpos : (0 : Int) < 2 ^ k := by positivity
  have h2 : x % ((2 : Int) ^ k) < 2 ^ k := Int.emod_lt_of_pos x hpos
  have h1 : 0 ≤ x % ((2 : Int) ^ k) := Int.emod_nonneg x (by positivity)
  have hcast : ((2 : Int) ^ k) = ((2 ^ k : Nat) : Int) := by push_cast; ring
  rw [hcast] at h1 h2
  omega

theorem two_pow_eq (w : Nat) : (256 : Nat) ^ w = 2 ^ (8 * w) := by
  rw [pow_mul]; norm_num

/-- A successful scalar serialize produces exactly `serializedLength` bytes. -/
theorem scalarSerialize_length (sp : ScalarSpec) (v : Int) (bytes : List Nat)
    (h : scalarSerialize sp v = .ok bytes) : bytes.length = sp.serializedLength := by
  unfold scalarSerialize at h
  split at h
  · exact absurd h (by simp)
  · simp only [Except.ok.injEq] at h
    subst h
    split <;> simp [writeUIntLEBytes_length]

/-- A successful scalar serialize implies the value was in range. -/
theorem scalarSerialize_inRange (sp : ScalarSpec) (v : Int) (bytes : List Nat)
    (h : scalarSerialize sp v = .ok bytes) :
    scalarMinValue sp ≤ v ∧ v ≤ scalarMaxValue sp := by
  unfold scalarSerialize at h
  split at h
  · exact absurd h (by simp)
  · omega

/-- Two's complement decode inverts the encode-side modulus for
in-range values. -/
theorem scalarDecodeValue_emod (sp : ScalarSpec) (v : Int)
    (hw : 0 < sp.serializedLength)
    (hmin : scalarMinValue sp ≤ v) (hmax : v ≤ scalarMaxValue sp) :
    scalarDecodeValue sp ((v % ((2 : Int) ^ (8 * sp.serializedLength))).toNat) = v := by
  set u : Nat := (v % ((2 : Int) ^ (8 * sp.serializedLength))).toNat with hu
  have hult : u < 2 ^ (8 * sp.serializedLength) := emod_two_pow_toNat_lt v _
  have hcastm : ((2 : Int) ^ (8 * sp.serializedLength)) =
      ((2 ^ (8 * sp.serializedLength) : Nat) : Int) := by push_cast; ring
  have hcasth : ((2 : Int) ^ (8 * sp.serializedLength - 1)) =
      ((2 ^ (8 * sp.serializedLength - 1) : Nat) : Int) := by push_cast; ring
  have hhalfn : 2 ^ (8 * sp.serializedLength) = 2 ^ (8 * sp.serializedLength - 1) * 2 := by
    rw [← pow_succ]
    congr 1
    omega
  have hmpos : (0 : Int) < (2 : Int) ^ (8 * sp.serializedLength) := by positivity
  have humod : (u : Int) = v % ((2 : Int) ^ (8 * sp.serializedLength)) := by
    rw [hu]; exact Int.toNat_of_nonneg (Int.emod_nonneg v (by omega))
  unfold scalarDecodeValue
  rcases Bool.eq_false_or_eq_true sp.signed with hs | hs
  · -- signed: values below zero are stored shifted up by 2 ^ (8 * length)
    simp only [scalarMinValue, scalarMaxValue, hs, if_true] at hmin hmax
    rw [hcasth] at hmin hmax
    simp only [hs, true_and]
    rcases le_or_lt 0 v with hv | hv
    · have hvm : v % ((2 : Int) ^ (8 * sp.serializedLength)) = v := by
        refine Int.emod_eq_of_lt hv ?_
        rw [hcastm]
        push_cast at hmax
        omega
      rw [hvm] at humod
      rw [if_neg (by push_cast at hmax humod; omega)]
      push_cast at hmax humod
      omega
    · have hvm : v % ((2 : Int) ^ (8 * sp.serializedLength)) =
          v + (2 : Int) ^ (8 * sp.serializedLength) := by
        have heq : (v + (2 : Int) ^ (8 * sp.serializedLength)) %
            ((2 : Int) ^ (8 * sp.serializedLength)) =
            v % ((2 : Int) ^ (8 * sp.serializedLength)) := Int.add_emod_self
        rw [← heq]
        refine Int.emod_eq_of_lt ?_ ?_
        · rw [hcastm]
          push_cast at hmin ⊢
          omega
        · rw [hcastm]
          push_cast at hmin ⊢
          omega
      rw [hvm] at humod
      rw [hcastm] at humod
      have hcond : 2 ^ (8 * sp.serializedLength - 1) ≤ u := by
        push_cast at humod
        omega
      rw [if_pos hcond, hcastm]
      push_cast at humod ⊢
      omega
  · -- unsigned: the range check ensures 0 ≤ v < 2 ^ (8 * length)
    simp only [scalarMinValue, scalarMaxValue, hs] at hmin hmax
    norm_num at hmin hmax
    have hvm : v % ((2 : Int) ^ (8 * sp.serializedLength)) = v := by
      refine Int.emod_eq_of_lt hmin ?_
      omega
    rw [hvm] at humod
    simp only [hs]
    norm_num
    omega

/-- Deserializing the bytes a scalar serialize produced (with anything
appended) recovers the value and consumes exactly the width, provided the
width is positive. -/
theorem scalarDeserialize_scalarSerialize (sp : ScalarSpec) (v : Int) (bytes rest : List Nat)
    (hw : 0 < sp.serializedLength)
    (h : scalarSerialize sp v = .ok bytes) :
    scalarDeserialize sp (bytes ++ rest) = .ok (v, sp.serializedLength) := by
  have hlen := scalarSerialize_length sp v bytes h
  have hrange := scalarSerialize_inRange sp v bytes h
  unfold scalarSerialize at h
  rw [if_neg (by omega)] at h
  simp only [Except.ok.injEq] at h
  have hult : (v % ((2 : Int) ^ (8 * sp.serializedLength))).toNat
      < 2 ^ (8 * sp.serializedLength) := emod_two_pow_toNat_lt v _
  have hread := readUIntLEBytes_writeUIntLEBytes sp.serializedLength
    ((v % ((2 : Int) ^ (8 * sp.serializedLength))).toNat)
    (by rw [two_pow_eq]; exact hult)
  have hbytes_read :
      readUIntLEBytes (if sp.littleEndian then bytes else bytes.reverse) =
        (v % ((2 : Int) ^ (8 * sp.serializedLength))).toNat := by
    subst h
    rcases Bool.eq_false_or_eq_true sp.littleEndian with hle | hle <;>
      simp [hle, List.reverse_reverse, hread]
  unfold scalarDeserialize
  rw [if_neg (by rw [List.length_append, hlen]; omega)]
  have htake : (bytes ++ rest).take sp.serializedLength = bytes := by
    rw [← hlen]
    exact List.take_left bytes rest
  simp only [htake, hbytes_read, Except.ok.injEq, Prod.mk.injEq, and_true]
  exact scalarDecodeValue_emod sp v hw hrange.1 hrange.2

/-- Bitwise or coincides with addition when the low `k` bits of the left
operand are clear and the right operand fits in `k` bits. -/
theorem lor_eq_add_of_lt (a b k : Nat) (hb : b < 2 ^ k) :
    (a * 2 ^ k) ||| b = a * 2 ^ k + b := by
  have h := Nat.mul_add_lt_is_or hb a
  rw [Nat.mul_comm a (2 ^ k)]
  omega

/-- The packed `value` of the `r:3, g:3, b:2` bitmask: every field is
masked to `2 ^ length - 1` (that is, reduced modulo `2 ^ length`), shifted
to its slot, and or-ed in. -/
theorem color8bit_getValue (r g b : Int) :
    sBitmaskGetValue (Color8Bit r g b) =
      .ok ((r % 8).toNat * 32 + (g % 8).toNat * 4 + (b % 4).toNat) := by
  have hr : (r % (8 : Int)).toNat < 8 := by
    have := emod_two_pow_toNat_lt r 3
    norm_num at this
    omega
  have hg : (g % (8 : Int)).toNat < 8 := by
    have := emod_two_pow_toNat_lt g 3
    norm_num at this
    omega
  have hb : (b % (4 : Int)).toNat < 4 := by
    have := emod_two_pow_toNat_lt b 2
    norm_num at this
    omega
  have e1 : ((r % (8 : Int)).toNat * 32) ||| ((g % (8 : Int)).toNat * 4) =
      (r % (8 : Int)).toNat * 32 + (g % (8 : Int)).toNat * 4 := by
    have h4 : (g % (8 : Int)).toNat * 4 < 2 ^ 5 := by omega
    have := lor_eq_add_of_lt ((r % (8 : Int)).toNat) ((g % (8 : Int)).toNat * 4) 5 h4
    norm_num at this
    omega
  have e2 : ((r % (8 : Int)).toNat * 32 + (g % (8 : Int)).toNat * 4) ||| (b % (4 : Int)).toNat =
      (r % (8 : Int)).toNat * 32 + (g % (8 : Int)).toNat * 4 + (b % (4 : Int)).toNat := by
    have hrgeq : (r % (8 : Int)).toNat * 32 + (g % (8 : Int)).toNat * 4 =
        ((r % (8 : Int)).toNat * 8 + (g % (8 : Int)).toNat) * 2 ^ 2 := by ring
    have := lor_eq_add_of_lt ((r % (8 : Int)).toNat * 8 + (g % (8 : Int)).toNat)
      ((b % (4 : Int)).toNat) 2 (by omega)
    rw [hrgeq]
    omega
  unfold sBitmaskGetValue
  rw [if_pos (show sBitmaskValidateLength (Color8Bit r g b) = true from rfl)]
  simp [sBitmaskPackGo, getBitProp, Color8Bit, bitValueToInt, Nat.shiftLeft_eq]
  rw [e1] at *
  omega

/-- The packed bitmask value fits in the one-byte storage codec. -/
theorem color8bit_getValue_lt (r g b : Int) (n : Nat)
    (h : sBitmaskGetValue (Color8Bit r g b) = .ok n) : n < 256 := by
  rw [color8bit_getValue] at h
  have hr : (r % (8 : Int)).toNat < 8 := by
    have := emod_two_pow_toNat_lt r 3
    norm_num at this
    omega
  have hg : (g % (8 : Int)).toNat < 8 := by
    have := emod_two_pow_toNat_lt g 3
    norm_num at this
    omega
  have hb : (b % (4 : Int)).toNat < 4 := by
    have := emod_two_pow_toNat_lt b 2
    norm_num at this
    omega
  simp only [Except.ok.injEq] at h
  omega

/-- Any byte value is accepted by the `SUInt8` write primitive. -/
theorem scalarSerialize_uint8_ok (n : Nat) (h : n < 256) :
    ∃ bytes, scalarSerialize SUInt8 (n : Int) = .ok bytes := by
  unfold scalarSerialize
  rw [if_neg (by simp [scalarMinValue, scalarMaxValue, SUInt8]; omega)]
  exact ⟨_, rfl⟩

/-! ## Claims -/

/-- C5 counterexample: the claim says a 3-bit field assigned 31 contributes
`0b011` to the packed value.  With `r = 31` (and `g = b = 0`) the code
packs `0b111` into the top 3-bit slot and serializes `0b11100000` (224),
not `0b01100000` (96) as the claimed contribution `0b011` would produce. -/
theorem sBitmask_overflow_contribution_counterexample :
    sBitmaskSerialize (Color8Bit 31 0 0) = .ok [224] ∧ (224 : Nat) ≠ 96 :=
  ⟨rfl, by decide⟩

/-- C5 (amended): for the one-byte bitmask with fields `r:3, g:3, b:2`
declared most-significant first, each field value is masked to
`2 ^ length - 1` (reduced modulo `2 ^ length`) before being shifted and
or-ed into the packed value -- so a 3-bit field assigned 31 contributes
`0b111`, silently dropping only the bits above the field width; setting
`r = g = b = 1` serializes to the single byte `0b00100101`; and
deserializing `0b11101010` sets `r = 0b111`, `g = 0b010`, `b = 0b10`. -/
theorem sBitmask_bitfield_masking :
    (∀ r g b : Int,
      sBitmaskGetValue (Color8Bit r g b) =
        .ok ((r % 8).toNat * 32 + (g % 8).toNat * 4 + (b % 4).toNat)) ∧
    sBitmaskSerialize (Color8Bit 31 0 0) = .ok [0b11100000] ∧
    sBitmaskSerialize (Color8Bit 1 1 1) = .ok [0b00100101] ∧
    sBitmaskDeserialize (Color8Bit 0 0 0) [0b11101010] = .ok (Color8Bit 0b111 0b010 0b10, 1) :=
  ⟨color8bit_getValue, rfl, rfl, rfl⟩

/-- C10: a fixed-width scalar wrapper's `serialize()` raises an error when
the current value lies outside the representable range of the declared
width and signedness, rather than silently truncating modulo `2 ^ width`;
bitmask fields, by contrast, are silently masked (packing any `r, g, b`
never throws). -/
theorem scalar_serialize_range_error :
    (∀ (sp : ScalarSpec) (v : Int),
      (v < scalarMinValue sp ∨ scalarMaxValue sp < v) →
        scalarSerialize sp v = .error (.base "The value of value is out of range")) ∧
    (∀ r g b : Int, ∃ bytes, sBitmaskSerialize (Color8Bit r g b) = .ok bytes) := by
  constructor
  · intro sp v h
    unfold scalarSerialize
    rw [if_pos h]
  · intro r g b
    have hv := color8bit_getValue r g b
    have hlt := color8bit_getValue_lt r g b _ hv
    obtain ⟨bytes, hbytes⟩ := scalarSerialize_uint8_ok _ hlt
    refine ⟨bytes, ?_⟩
    unfold sBitmaskSerialize
    rw [hv]
    exact hbytes

/-- C10 witness: `SUInt8` with value 256 is out of range and `serialize`
raises rather than emitting the truncated byte 0. -/
theorem scalar_serialize_range_error_witness :
    scalarMaxValue SUInt8 < 256 ∧
      scalarSerialize SUInt8 256 = .error (.base "The value of value is out of range") :=
  ⟨by decide, scalar_serialize_range_error.1 SUInt8 256 (Or.inr (by decide))⟩

/-- A concrete heap for the aliasing counterexample: the buffer object at
reference 0 holds the bytes `[1, 2, 3]`. -/
def c6Heap : Heap :=
  fun r => if r = 0 then [1, 2, 3] else []

/-- C6 counterexample: the claim says mutating the buffer returned by
`SBuffer.serialize()` leaves the stored value unchanged.  With the stored
blob `[1, 2, 3]` at reference 0, writing byte 99 at index 0 of the
returned buffer changes the stored value to `[99, 2, 3]`: `serialize`
returns `this.value` itself, not a defensive copy. -/
theorem sBuffer_serialize_alias_counterexample :
    heapWrite c6Heap (sBufferSerializeRef ⟨0⟩) 0 99 0 = [99, 2, 3] ∧
      c6Heap 0 = [1, 2, 3] ∧
      heapWrite c6Heap (sBufferSerializeRef ⟨0⟩) 0 99 0 ≠ c6Heap 0 := by
  refine ⟨rfl, rfl, ?_⟩
  decide

/-- C6 (amended): `SBuffer.serialize()` returns the stored byte blob
itself (`return this.value`), not a defensive copy: the returned buffer is
the stored reference, any write through the returned buffer is visible in
the stored value, and content-wise the returned bytes are exactly the
stored bytes. -/
theorem sBuffer_serialize_returns_stored :
    (∀ s : SBufferRefState, sBufferSerializeRef s = s.valueRef) ∧
    (∀ (s : SBufferRefState) (h : Heap) (idx byte : Nat),
      heapWrite h (sBufferSerializeRef s) idx byte s.valueRef = (h s.valueRef).set idx byte) ∧
    (∀ s : SBufferState, sBufferSerialize s = s.value) := by
  refine ⟨fun s => rfl, fun s h idx byte => ?_, fun s => rfl⟩
  simp [heapWrite, sBufferSerializeRef]

/-- C7 counterexample: the claim says `SDynamicBuffer.deserialize` fails
with a `DecodeError` when fewer than `N` bytes remain after the length
prefix.  On `[0, 5, 1, 2]` (16-bit big-endian prefix `N = 5`, only 2 bytes
remaining) the code succeeds, silently taking the 2 remaining bytes and
even reporting 7 bytes consumed. -/
theorem sDynamicBuffer_short_input_counterexample :
    sDynamicBufferDeserialize SUInt16BE [0, 5, 1, 2] = .ok (⟨[1, 2]⟩, 7) := rfl

/-- C7 (amended): `SDynamicBuffer.deserialize` first decodes the length
prefix to obtain `N`, then takes the next `min(N, remaining)` bytes of the
input as the blob via Node's clamping `subarray`, and returns
`prefixSize + N` as the bytes consumed; when fewer than `N` bytes remain
it silently takes the remaining bytes rather than failing. -/
theorem sDynamicBuffer_deserialize_clamps (lengthType : ScalarSpec)
    (buffer : List Nat) (n : Int) (readOffset : Nat)
    (h : scalarDeserialize lengthType buffer = .ok (n, readOffset)) :
    sDynamicBufferDeserialize lengthType buffer =
      .ok (⟨(buffer.drop readOffset).take n.toNat⟩, readOffset + n.toNat) := by
  unfold sDynamicBufferDeserialize
  rw [h]

/-- C7 witness: the clamping theorem applied to the short input. -/
theorem sDynamicBuffer_deserialize_clamps_witness :
    scalarDeserialize SUInt16BE [0, 5, 1, 2] = .ok (5, 2) ∧
      sDynamicBufferDeserialize SUInt16BE [0, 5, 1, 2] = .ok (⟨[1, 2]⟩, 7) :=
  ⟨rfl, sDynamicBuffer_deserialize_clamps SUInt16BE [0, 5, 1, 2] 5 2 rfl⟩

/-- The record used to exhibit the `assignSerializableMap` defect: a
single field `prop1` registered with the `SUInt8` wrapper. -/
def c9Object : SObjectState :=
  ⟨[⟨"prop1", some SUInt8⟩], [("prop1", .pInt 0)]⟩

/-- C9: the claim (and the method's own doc comment) says a field
registered with a wrapper type receives the wrapper's unwrapped plain
value.  The code tests `fieldSpecMap.wrapperType` -- a property access on
the whole name-to-spec map -- instead of the matched field spec's
`wrapperType`, so the branch that unwraps never runs (unless a field is
literally named "wrapperType"): assigning `SUInt8.of(42)` to the wrapped
field `prop1` stores the wrapper object itself, not the plain value 42.
The unknown-key half of the claim does hold: an unregistered key is a
hard error. -/
theorem sObject_assignSerializableMap_wrapped_bug :
    sObjectAssignSerializableMap c9Object [("prop1", .scalar SUInt8 42)] =
      .ok ⟨[⟨"prop1", some SUInt8⟩], [("prop1", .pSer (.scalar SUInt8 42))]⟩ ∧
    (∀ s2, sObjectAssignSerializableMap c9Object [("prop1", .scalar SUInt8 42)] = .ok s2 →
      getProp s2 "prop1" ≠ .pInt 42) ∧
    sObjectAssignSerializableMap c9Object [("unknown", .scalar SUInt8 1)] =
      .error (.sobject "unknown" "Error in field unknown: Unknown property unknown"
        (.base "Unknown property unknown")) := by
  refine ⟨rfl, ?_, rfl⟩
  intro s2 h
  rw [show sObjectAssignSerializableMap c9Object [("prop1", .scalar SUInt8 42)] =
    .ok (⟨[⟨"prop1", some SUInt8⟩], [("prop1", .pSer (.scalar SUInt8 42))]⟩ : SObjectState)
    from rfl] at h
  simp only [Except.ok.injEq] at h
  rw [← h]
  decide

/-- `serialize` on any state equals `serialize` on a dynamically sized
array holding the derived view (the view is all `mapSArray` looks at). -/
theorem sArraySerializeS_eq (s : SArrayState) :
    sArraySerializeS s =
      (sArraySerialize (SArray.of (sArrayView s))).map (fun bytes => (bytes, s)) := by
  unfold sArraySerializeS
  have hv : sArraySerialize (SArray.of (sArrayView s)) = sArraySerialize s := rfl
  rw [hv]
  cases sArraySerialize s <;> rfl

/-- `getSerializedLength` likewise only looks at the derived view. -/
theorem sArrayGetSerializedLengthS_eq (s : SArrayState) :
    sArrayGetSerializedLengthS s =
      (sArrayGetSerializedLength (SArray.of (sArrayView s))).map (fun n => (n, s)) := by
  unfold sArrayGetSerializedLengthS
  have hv : sArrayGetSerializedLength (SArray.of (sArrayView s)) =
      sArrayGetSerializedLength s := rfl
  rw [hv]
  cases sArrayGetSerializedLength s <;> rfl

/-- The view of an under-filled fixed-length array is the stored sequence
padded with default-constructed elements. -/
theorem sArrayView_pad (N : Nat) (ty : ElemType) (l : List Elem) (h : l.length < N) :
    sArrayView (SArray.ofLengthOf N ty l) =
      l ++ List.replicate (N - l.length) (newElem ty) := by
  unfold sArrayView SArray.ofLengthOf
  simp [h]

/-- The view of an over-filled fixed-length array is the first `N` stored
elements. -/
theorem sArrayView_truncate (N : Nat) (ty : ElemType) (l : List Elem) (h : N < l.length) :
    sArrayView (SArray.ofLengthOf N ty l) = l.take N := by
  unfold sArrayView SArray.ofLengthOf
  simp only
  rw [if_neg (by omega), if_pos h]

/-- The view of a fixed-length array always has exactly `N` elements. -/
theorem sArrayView_fixed_length (N : Nat) (ty : ElemType) (l : List Elem) :
    (sArrayView (SArray.ofLengthOf N ty l)).length = N := by
  unfold sArrayView SArray.ofLengthOf
  simp only
  split
  · simp only [List.length_append, List.length_replicate]
    omega
  · split
    · next h1 h2 => simp only [List.length_take]; omega
    · next h1 h2 => omega

/-- C3: for a fixed-length array class, `serialize` and
`getSerializedLength` operate on the derived view -- padded with
default-constructed elements when the stored sequence is short, truncated
to the first `N` elements when it is long -- while the returned state is
the unchanged input state: the padding is not persisted and the extra
stored elements are not dropped.  Encoding a stored empty sequence of
`SArray.ofLength(3, SInt8)` yields 3 zero bytes. -/
theorem sArray_fixed_view_padding_truncation :
    (∀ (N : Nat) (ty : ElemType) (l : List Elem), l.length < N →
      sArraySerializeS (SArray.ofLengthOf N ty l) =
        (sArraySerialize (SArray.of (l ++ List.replicate (N - l.length) (newElem ty)))).map
          (fun bytes => (bytes, SArray.ofLengthOf N ty l)) ∧
      sArrayGetSerializedLengthS (SArray.ofLengthOf N ty l) =
        (sArrayGetSerializedLength
            (SArray.of (l ++ List.replicate (N - l.length) (newElem ty)))).map
          (fun n => (n, SArray.ofLengthOf N ty l))) ∧
    (∀ (N : Nat) (ty : ElemType) (l : List Elem), N < l.length →
      sArraySerializeS (SArray.ofLengthOf N ty l) =
        (sArraySerialize (SArray.of (l.take N))).map
          (fun bytes => (bytes, SArray.ofLengthOf N ty l)) ∧
      sArrayGetSerializedLengthS (SArray.ofLengthOf N ty l) =
        (sArrayGetSerializedLength (SArray.of (l.take N))).map
          (fun n => (n, SArray.ofLengthOf N ty l))) ∧
    sArraySerializeS (SArray.ofLengthOf 3 (.scalarTy SInt8) []) =
      .ok ([0, 0, 0], SArray.ofLengthOf 3 (.scalarTy SInt8) []) := by
  refine ⟨fun N ty l h => ?_, fun N ty l h => ?_, rfl⟩
  · rw [sArraySerializeS_eq, sArrayGetSerializedLengthS_eq, sArrayView_pad N ty l h]
    exact ⟨rfl, rfl⟩
  · rw [sArraySerializeS_eq, sArrayGetSerializedLengthS_eq, sArrayView_truncate N ty l h]
    exact ⟨rfl, rfl⟩

/-- C3 witness: the padding branch at `SArray.ofLength(3, SInt8)` holding
one element, and the truncation branch at the same class holding four. -/
theorem sArray_fixed_view_padding_truncation_witness :
    ([Elem.scalar SInt8 5].length < 3 ∧
      sArraySerializeS (SArray.ofLengthOf 3 (.scalarTy SInt8) [.scalar SInt8 5]) =
        (sArraySerialize (SArray.of
            ([Elem.scalar SInt8 5] ++ List.replicate (3 - 1) (newElem (.scalarTy SInt8))))).map
          (fun bytes => (bytes, SArray.ofLengthOf 3 (.scalarTy SInt8) [.scalar SInt8 5]))) ∧
    (3 < (List.replicate 4 (Elem.scalar SInt8 9)).length ∧
      sArraySerializeS (SArray.ofLengthOf 3 (.scalarTy SInt8)
          (List.replicate 4 (.scalar SInt8 9))) =
        (sArraySerialize (SArray.of ((List.replicate 4 (Elem.scalar SInt8 9)).take 3))).map
          (fun bytes => (bytes, SArray.ofLengthOf 3 (.scalarTy SInt8)
            (List.replicate 4 (.scalar SInt8 9))))) :=
  ⟨⟨by decide,
    (sArray_fixed_view_padding_truncation.1 3 (.scalarTy SInt8) [.scalar SInt8 5] (by decide)).1⟩,
   ⟨by decide,
    (sArray_fixed_view_padding_truncation.2.1 3 (.scalarTy SInt8)
      (List.replicate 4 (.scalar SInt8 9)) (by decide)).1⟩⟩

/-- The deserialize loop decodes exactly one element per view element. -/
theorem sArrayDeserializeGo_length (l : List Elem) (buffer : List Nat)
    (offset i : Nat) (decoded : List Elem) (finalOffset : Nat)
    (h : sArrayDeserializeGo l buffer offset i = .ok (decoded, finalOffset)) :
    decoded.length = l.length := by
  induction l generalizing offset i decoded finalOffset with
  | nil =>
    unfold sArrayDeserializeGo at h
    simp only [Except.ok.injEq, Prod.mk.injEq] at h
    rw [← h.1]
  | cons e rest ih =>
    unfold sArrayDeserializeGo at h
    cases hd : elemDeserialize e (buffer.drop offset) with
    | error err => rw [hd] at h; exact absurd h (by simp)
    | ok p =>
      obtain ⟨e2, n⟩ := p
      rw [hd] at h
      simp only at h
      cases hgo : sArrayDeserializeGo rest buffer (offset + n) (i + 1) with
      | error err => rw [hgo] at h; exact absurd h (by simp)
      | ok q =>
        obtain ⟨l2, fo⟩ := q
        rw [hgo] at h
        simp only [Except.ok.injEq, Prod.mk.injEq] at h
        rw [← h.1]
        simp only [List.length_cons]
        rw [ih _ _ _ _ hgo]

/-- The stored sequence after holding 5 elements and deserializing into a
fixed-length-3 array: the first 3 are replaced, the last 2 retained. -/
def c4ExtraArray : SArrayState :=
  SArray.ofLengthOf 3 (.scalarTy SInt8) (List.replicate 5 (.scalar SInt8 1))

/-- C4 counterexample: the claim says deserialize always resizes the
stored sequence to exactly `N` elements even when it previously had more.
With 5 stored elements in an `SArray.ofLength(3, SInt8)`, deserializing
`[42, 42, 42, 42]` leaves a 5-element stored sequence (the two extra
elements are retained, as the repo's own test asserts). -/
theorem sArray_fixed_deserialize_resize_counterexample :
    sArrayDeserialize c4ExtraArray [42, 42, 42, 42] =
      .ok (⟨[.scalar SInt8 42, .scalar SInt8 42, .scalar SInt8 42,
             .scalar SInt8 1, .scalar SInt8 1], some 3, some (.scalarTy SInt8)⟩, 3) ∧
    ([Elem.scalar SInt8 42, .scalar SInt8 42, .scalar SInt8 42,
      .scalar SInt8 1, .scalar SInt8 1].length ≠ 3) :=
  ⟨rfl, by decide⟩

/-- C4 (amended): for a fixed-length array class, a successful deserialize
replaces the first `N` stored elements with freshly decoded ones read from
the buffer in order; when the stored sequence had at most `N` elements it
is resized to exactly `N`, but when it had more than `N` the extra
elements are retained (only the first `N` are replaced).
`SArray.ofLength(3, SInt8)` deserializing `[42, 42, 42, 42]` yields the
stored sequence `[42, 42, 42]` and consumes only 3 bytes. -/
theorem sArray_fixed_deserialize_resize :
    (∀ (N : Nat) (ty : ElemType) (l : List Elem) (buffer : List Nat)
        (s2 : SArrayState) (off : Nat),
      sArrayDeserialize (SArray.ofLengthOf N ty l) buffer = .ok (s2, off) →
        (l.length ≤ N → s2.value.length = N) ∧
        (N < l.length → s2.value.length = l.length ∧ s2.value.drop N = l.drop N)) ∧
    sArrayDeserialize (SArray.ofLengthNew 3 (.scalarTy SInt8)) [42, 42, 42, 42] =
      .ok (SArray.ofLengthOf 3 (.scalarTy SInt8)
        [.scalar SInt8 42, .scalar SInt8 42, .scalar SInt8 42], 3) := by
  refine ⟨fun N ty l buffer s2 off h => ?_, rfl⟩
  unfold sArrayDeserialize at h
  cases hgo : sArrayDeserializeGo (sArrayView (SArray.ofLengthOf N ty l)) buffer 0 0 with
  | error err => rw [hgo] at h; exact absurd h (by simp)
  | ok p =>
    rw [hgo] at h
    simp only [Except.ok.injEq, Prod.mk.injEq] at h
    have hdlen : p.1.length = N := by
      rw [sArrayDeserializeGo_length _ buffer 0 0 p.1 p.2 (by rw [hgo])]
      exact sArrayView_fixed_length N ty l
    have hval : s2.value = p.1 ++ l.drop p.1.length := by
      rw [← h.1]
      rfl
    constructor
    · intro hle
      rw [hval, List.length_append, List.length_drop, hdlen]
      omega
    · intro hgt
      constructor
      · rw [hval, List.length_append, List.length_drop, hdlen]
        omega
      · rw [hval, ← hdlen]
        exact List.drop_left p.1 (l.drop p.1.length)

/-- C4 witness: the amended theorem applied to the 3-element default
instance (resized to exactly 3) and to the 5-element instance (extras
kept). -/
theorem sArray_fixed_deserialize_resize_witness :
    ((List.replicate 3 (newElem (.scalarTy SInt8))).length ≤ 3 ∧
      (SArray.ofLengthOf 3 (.scalarTy SInt8)
        [Elem.scalar SInt8 42, .scalar SInt8 42, .scalar SInt8 42]).value.length = 3) ∧
    (3 < (List.replicate 5 (Elem.scalar SInt8 1)).length ∧
      (⟨[Elem.scalar SInt8 42, .scalar SInt8 42, .scalar SInt8 42,
         .scalar SInt8 1, .scalar SInt8 1], some 3,
         some (.scalarTy SInt8)⟩ : SArrayState).value.length =
        (List.replicate 5 (Elem.scalar SInt8 1)).length) :=
  ⟨⟨by decide,
    (sArray_fixed_deserialize_resize.1 3 (.scalarTy SInt8)
      (List.replicate 3 (newElem (.scalarTy SInt8))) [42, 42, 42, 42] _ 3 rfl).1 (by decide)⟩,
   ⟨by decide,
    ((sArray_fixed_deserialize_resize.1 3 (.scalarTy SInt8)
      (List.replicate 5 (.scalar SInt8 1)) [42, 42, 42, 42] _ 3 rfl).2 (by decide)).1⟩⟩

/-- If the elements before position `pre.length` all succeed and the next
element fails, `mapSArray` re-throws the failure wrapped with that
element's zero-based index: the message is prefixed with
`Error at element {index}: ` and the original error is the cause. -/
theorem mapSArrayGo_error_at (α : Type) (fn : Elem → Nat → Except SError α)
    (pre : List Elem) (e : Elem) (post : List Elem) (start : Nat)
    (l0 : List α) (err : SError)
    (hpre : mapSArrayGo fn pre start = .ok l0)
    (he : fn e (start + pre.length) = .error err) :
    mapSArrayGo fn (pre ++ e :: post) start =
      .error (wrapElemError (start + pre.length) err) := by
  induction pre generalizing start l0 with
  | nil =>
    simp only [List.length_nil, Nat.add_zero] at he
    simp only [List.nil_append]
    unfold mapSArrayGo
    rw [he]
    simp
  | cons a pre ih =>
    unfold mapSArrayGo at hpre
    cases hfa : fn a start with
    | error err2 => rw [hfa] at hpre; exact absurd hpre (by simp)
    | ok v =>
      rw [hfa] at hpre
      simp only at hpre
      cases hrec : mapSArrayGo fn pre (start + 1) with
      | error err2 => rw [hrec] at hpre; exact absurd hpre (by simp)
      | ok l1 =>
        simp only [List.cons_append]
        unfold mapSArrayGo
        rw [hfa]
        simp only
        rw [ih (start + 1) l1 hrec
          (by rw [show start + 1 + pre.length = start + (a :: pre).length from by
            simp; omega] at *; exact he)]
        simp only [List.length_cons]
        rw [show start + (pre.length + 1) = start + 1 + pre.length from by omega]

/-- The deserialize analogue: if the elements before position `pre.length`
deserialize successfully (final read offset `off2`) and the next element
fails, the loop re-throws the failure wrapped with that element's index. -/
theorem sArrayDeserializeGo_error_at (pre : List Elem) (e : Elem) (post : List Elem)
    (buffer : List Nat) (offset i : Nat) (err : SError)
    (decoded : List Elem) (off2 : Nat)
    (hpre : sArrayDeserializeGo pre buffer offset i = .ok (decoded, off2))
    (he : elemDeserialize e (buffer.drop off2) = .error err) :
    sArrayDeserializeGo (pre ++ e :: post) buffer offset i =
      .error (wrapElemError (i + pre.length) err) := by
  induction pre generalizing offset i decoded off2 with
  | nil =>
    unfold sArrayDeserializeGo at hpre
    simp only [Except.ok.injEq, Prod.mk.injEq] at hpre
    simp only [List.nil_append, List.length_nil, Nat.add_zero]
    unfold sArrayDeserializeGo
    rw [← hpre.2] at he
    rw [he]
  | cons a pre ih =>
    unfold sArrayDeserializeGo at hpre
    cases hda : elemDeserialize a (buffer.drop offset) with
    | error err2 => rw [hda] at hpre; exact absurd hpre (by simp)
    | ok p =>
      obtain ⟨a2, n⟩ := p
      rw [hda] at hpre
      simp only at hpre
      cases hrec : sArrayDeserializeGo pre buffer (offset + n) (i + 1) with
      | error err2 => rw [hrec] at hpre; exact absurd hpre (by simp)
      | ok q =>
        obtain ⟨l1, fo⟩ := q
        rw [hrec] at hpre
        simp only [Except.ok.injEq, Prod.mk.injEq] at hpre
        simp only [List.cons_append]
        unfold sArrayDeserializeGo
        rw [hda]
        simp only
        rw [ih (offset + n) (i + 1) l1 fo hrec (by rw [hpre.2] at *; exact he)]
        simp only [List.length_cons]
        rw [show i + (pre.length + 1) = i + 1 + pre.length from by omega]

/-- Unfolding of `wrapSArrayErrorAsSObjectError` on an `SArrayError`
whose index names a registered field. -/
theorem wrapSArrayError_sarray (s : SObjectState) (i : Nat) (msg : String)
    (cause : SError) (hi : i < s.fieldSpecs.length) :
    wrapSArrayErrorAsSObjectError s (.sarray i msg cause) =
      .sobject (s.fieldSpecs.get ⟨i, hi⟩).propertyKey
        ("Error in field " ++ (s.fieldSpecs.get ⟨i, hi⟩).propertyKey ++ ": " ++ cause.message)
        cause := by
  simp only [wrapSArrayErrorAsSObjectError]
  rw [List.get?_eq_get hi]
  rfl

/-- An indexed `SArrayError` escaping a field operation of an `SObject` is
converted into an `SObjectError` naming the field registered at that
index, with the original error (the `SArrayError`'s cause) preserved as
cause. -/
theorem sObject_wraps_indexed_error (s : SObjectState) (i : Nat) (msg : String)
    (cause : SError) (hi : i < s.fieldSpecs.length) :
    (sArraySerialize (sObjectToSArray s) = .error (.sarray i msg cause) →
      sObjectSerialize s = .error (.sobject (s.fieldSpecs.get ⟨i, hi⟩).propertyKey
        ("Error in field " ++ (s.fieldSpecs.get ⟨i, hi⟩).propertyKey ++ ": " ++ cause.message)
        cause)) ∧
    (sArrayGetSerializedLength (sObjectToSArray s) = .error (.sarray i msg cause) →
      sObjectGetSerializedLength s = .error (.sobject (s.fieldSpecs.get ⟨i, hi⟩).propertyKey
        ("Error in field " ++ (s.fieldSpecs.get ⟨i, hi⟩).propertyKey ++ ": " ++ cause.message)
        cause)) ∧
    (∀ buffer : List Nat,
      sArrayDeserialize (sObjectToSArray s) buffer = .error (.sarray i msg cause) →
      sObjectDeserialize s buffer = .error (.sobject (s.fieldSpecs.get ⟨i, hi⟩).propertyKey
        ("Error in field " ++ (s.fieldSpecs.get ⟨i, hi⟩).propertyKey ++ ": " ++ cause.message)
        cause)) := by
  refine ⟨fun h => ?_, fun h => ?_, fun buffer h => ?_⟩
  · unfold sObjectSerialize
    rw [h]
    exact congrArg Except.error (wrapSArrayError_sarray s i msg cause hi)
  · unfold sObjectGetSerializedLength
    rw [h]
    exact congrArg Except.error (wrapSArrayError_sarray s i msg cause hi)
  · unfold sObjectDeserialize
    rw [h]
    exact congrArg Except.error (wrapSArrayError_sarray s i msg cause hi)

/-- The record of the error-attribution test: `prop1` wrapped by
`SUInt16BE`, `prop2` a throwing `Serializable`. -/
def c8Object : SObjectState :=
  ⟨[⟨"prop1", some SUInt16BE⟩, ⟨"prop2", none⟩],
   [("prop1", .pInt 3), ("prop2", .pSer (.throwing "oops"))]⟩

/-- C8: whenever an element of an `SArray` throws during `serialize`,
`deserialize`, `getSerializedLength` or `toJSON` (all four run through the
same `mapSArray` wrapper, quantified here by `fn`, with the deserialize
loop proved separately), the array re-throws an `SArrayError` whose
message is `Error at element {index}: ` followed by the original message,
carrying the zero-based index and the original error as cause; and an
indexed error arising inside an `SObject` operation is converted into an
`SObjectError` naming the field registered at that index, preserving the
original cause.  The two `rfl` conjuncts replay the repo's tests: an array
whose second element throws reports index 1, and a record whose second
field throws reports field `prop2`. -/
theorem sArray_indexed_error_attribution :
    (∀ (α : Type) (fn : Elem → Nat → Except SError α) (pre : List Elem) (e : Elem)
        (post : List Elem) (l0 : List α) (err : SError),
      mapSArrayGo fn pre 0 = .ok l0 →
      fn e pre.length = .error err →
      mapSArrayGo fn (pre ++ e :: post) 0 =
        .error (.sarray pre.length
          ("Error at element " ++ toString pre.length ++ ": " ++ err.message) err)) ∧
    (∀ (pre : List Elem) (e : Elem) (post : List Elem) (buffer : List Nat)
        (decoded : List Elem) (off2 : Nat) (err : SError),
      sArrayDeserializeGo pre buffer 0 0 = .ok (decoded, off2) →
      elemDeserialize e (buffer.drop off2) = .error err →
      sArrayDeserializeGo (pre ++ e :: post) buffer 0 0 =
        .error (.sarray pre.length
          ("Error at element " ++ toString pre.length ++ ": " ++ err.message) err)) ∧
    (∀ (s : SObjectState) (i : Nat) (msg : String) (cause : SError)
        (hi : i < s.fieldSpecs.length),
      sArraySerialize (sObjectToSArray s) = .error (.sarray i msg cause) →
      sObjectSerialize s = .error (.sobject (s.fieldSpecs.get ⟨i, hi⟩).propertyKey
        ("Error in field " ++ (s.fieldSpecs.get ⟨i, hi⟩).propertyKey ++ ": " ++ cause.message)
        cause)) ∧
    sArraySerialize (SArray.of [.scalar SUInt16BE 3, .throwing "test error",
        .scalar SUInt16BE 100]) =
      .error (.sarray 1 "Error at element 1: test error" (.base "test error")) ∧
    sObjectSerialize c8Object =
      .error (.sobject "prop2" "Error in field prop2: oops" (.base "oops")) := by
  refine ⟨fun α fn pre e post l0 err hpre he => ?_,
    fun pre e post buffer decoded off2 err hpre he => ?_,
    fun s i msg cause hi h => (sObject_wraps_indexed_error s i msg cause hi).1 h,
    rfl, rfl⟩
  · have := mapSArrayGo_error_at α fn pre e post 0 l0 err hpre (by simpa using he)
    simpa [wrapElemError] using this
  · have := sArrayDeserializeGo_error_at pre e post buffer 0 0 err decoded off2 hpre he
    simpa [wrapElemError] using this

/-- C8 witness: the wrapping lemmas applied at the test inputs -- the
throwing element at index 1 of a 3-element array during serialize and
during deserialize, and the field re-attribution on `c8Object`. -/
theorem sArray_indexed_error_attribution_witness :
    mapSArrayGo (fun e _ => elemSerialize e)
        ([.scalar SUInt16BE 3] ++ Elem.throwing "test error" :: [.scalar SUInt16BE 100]) 0 =
      .error (.sarray 1 "Error at element 1: test error" (.base "test error")) ∧
    sArrayDeserializeGo
        ([.scalar SUInt16BE 3] ++ Elem.throwing "test error" :: [.scalar SUInt16BE 100])
        (List.replicate 100 0) 0 0 =
      .error (.sarray 1 "Error at element 1: test error" (.base "test error")) ∧
    sObjectSerialize c8Object =
      .error (.sobject "prop2" "Error in field prop2: oops" (.base "oops")) :=
  ⟨sArray_indexed_error_attribution.1 (List Nat) (fun e _ => elemSerialize e)
      [.scalar SUInt16BE 3] (.throwing "test error") [.scalar SUInt16BE 100]
      [[0, 3]] (.base "test error") rfl rfl,
   sArray_indexed_error_attribution.2.1 [.scalar SUInt16BE 3] (.throwing "test error")
      [.scalar SUInt16BE 100] (List.replicate 100 0) [.scalar SUInt16BE 0] 2
      (.base "test error") rfl rfl,
   sArray_indexed_error_attribution.2.2.1 c8Object 1 "Error at element 1: oops"
      (.base "oops") (by decide) rfl⟩

/-- An element whose serialize succeeds reports that buffer's length as
its serialized length. -/
theorem elemGetSerializedLength_of_serialize (e : Elem) (bytes : List Nat)
    (h : elemSerialize e = .ok bytes) : elemGetSerializedLength e = .ok bytes.length := by
  cases e with
  | scalar sp v =>
    unfold elemGetSerializedLength
    rw [scalarSerialize_length sp v bytes h]
  | throwing m => exact absurd h (by simp [elemSerialize])

/-- When per-element serialize succeeds across a view, per-element
`getSerializedLength` yields exactly the chunk lengths. -/
theorem mapSArrayGo_size_of_serialize (l : List Elem) (start : Nat)
    (chunks : List (List Nat))
    (h : mapSArrayGo (fun e _ => elemSerialize e) l start = .ok chunks) :
    mapSArrayGo (fun e _ => elemGetSerializedLength e) l start =
      .ok (chunks.map List.length) := by
  induction l generalizing start chunks with
  | nil =>
    unfold mapSArrayGo at h ⊢
    simp only [Except.ok.injEq] at h
    rw [← h]
    rfl
  | cons e rest ih =>
    unfold mapSArrayGo at h ⊢
    cases hse : elemSerialize e with
    | error err => rw [hse] at h; exact absurd h (by simp)
    | ok bytes =>
      rw [hse] at h
      simp only at h
      cases hrec : mapSArrayGo (fun e _ => elemSerialize e) rest (start + 1) with
      | error err => rw [hrec] at h; exact absurd h (by simp)
      | ok chunksRest =>
        rw [hrec] at h
        simp only [Except.ok.injEq] at h
        rw [elemGetSerializedLength_of_serialize e bytes hse]
        simp only
        rw [ih (start + 1) chunksRest hrec]
        simp only [← h]
        rfl

/-- A successful `SArray.serialize` determines `getSerializedLength`: the
sum of the element lengths is the output's byte count. -/
theorem sArrayGetSerializedLength_of_serialize (s : SArrayState) (bytes : List Nat)
    (h : sArraySerialize s = .ok bytes) :
    sArrayGetSerializedLength s = .ok bytes.length := by
  unfold sArraySerialize at h
  cases hmap : mapSArrayGo (fun e _ => elemSerialize e) (sArrayView s) 0 with
  | error err => rw [hmap] at h; exact absurd h (by simp)
  | ok chunks =>
    rw [hmap] at h
    simp only [Except.ok.injEq] at h
    unfold sArrayGetSerializedLength
    rw [mapSArrayGo_size_of_serialize (sArrayView s) 0 chunks hmap]
    simp only [Except.ok.injEq]
    rw [← h, List.length_flatten]

/-- C2: for every codec in the embedding, `getSerializedLength` equals the
byte length of a successful `serialize`'s output; for the composite array
codec the state-passing forms also return the input state unchanged, so
computing the length does not mutate the instance (none of the source
`serialize` / `getSerializedLength` bodies assigns to `this`).  String
states quantify over the encoded byte sequence of the value, covering
every options value. -/
theorem serialized_length_consistency :
    (∀ (sp : ScalarSpec) (v : Int) (bytes : List Nat),
      scalarSerialize sp v = .ok bytes → bytes.length = scalarGetSerializedLength sp) ∧
    (∀ s : SStringNTState, (sStringNTSerialize s).length = sStringNTGetSerializedLength s) ∧
    (∀ s : SStringState, (sStringSerialize s).length = sStringGetSerializedLength s) ∧
    (∀ s : SBufferState, (sBufferSerialize s).length = sBufferGetSerializedLength s) ∧
    (∀ (lengthType : ScalarSpec) (s : SBufferState) (bytes : List Nat),
      sDynamicBufferSerialize lengthType s = .ok bytes →
        bytes.length = sDynamicBufferGetSerializedLength lengthType s) ∧
    (∀ (s : SArrayState) (bytes : List Nat) (s2 : SArrayState),
      sArraySerializeS s = .ok (bytes, s2) →
        s2 = s ∧ sArrayGetSerializedLengthS s = .ok (bytes.length, s)) ∧
    (∀ (s : SObjectState) (bytes : List Nat),
      sObjectSerialize s = .ok bytes → sObjectGetSerializedLength s = .ok bytes.length) ∧
    (∀ (s : SBitmaskState) (bytes : List Nat),
      sBitmaskSerialize s = .ok bytes → bytes.length = sBitmaskGetSerializedLength s) := by
  refine ⟨?_, ?_, ?_, fun s => rfl, ?_, ?_, ?_, ?_⟩
  · intro sp v bytes h
    exact scalarSerialize_length sp v bytes h
  · intro s
    unfold sStringNTSerialize sStringNTGetSerializedLength
    split
    · next h =>
      have ht : (s.value.take (s.length.getD 0 - 1)).length ≤ s.length.getD 0 - 1 := by
        rw [List.length_take]
        omega
      simp only [List.length_append, List.length_cons, List.length_replicate]
      omega
    · simp
  · intro s
    unfold sStringSerialize sStringGetSerializedLength
    split
    · next h =>
      have ht : (s.value.take (s.length.getD 0)).length ≤ s.length.getD 0 := by
        rw [List.length_take]
        omega
      simp only [List.length_append, List.length_replicate]
      omega
    · rfl
  · intro lengthType s bytes h
    unfold sDynamicBufferSerialize at h
    cases hl : scalarSerialize lengthType s.value.length with
    | error err => rw [hl] at h; exact absurd h (by simp)
    | ok lengthBytes =>
      rw [hl] at h
      simp only [Except.ok.injEq] at h
      unfold sDynamicBufferGetSerializedLength
      rw [← h, List.length_append, scalarSerialize_length lengthType _ _ hl]
  · intro s bytes s2 h
    unfold sArraySerializeS at h
    cases hs : sArraySerialize s with
    | error err => rw [hs] at h; exact absurd h (by simp)
    | ok b =>
      rw [hs] at h
      simp only [Except.ok.injEq, Prod.mk.injEq] at h
      refine ⟨h.2.symm, ?_⟩
      unfold sArrayGetSerializedLengthS
      rw [sArrayGetSerializedLength_of_serialize s b hs, h.1]
  · intro s bytes h
    unfold sObjectSerialize at h
    cases hs : sArraySerialize (sObjectToSArray s) with
    | error err => rw [hs] at h; exact absurd h (by simp)
    | ok b =>
      rw [hs] at h
      simp only [Except.ok.injEq] at h
      unfold sObjectGetSerializedLength
      rw [sArrayGetSerializedLength_of_serialize _ b hs, h]
  · intro s bytes h
    unfold sBitmaskSerialize at h
    cases hv : sBitmaskGetValue s with
    | error err => rw [hv] at h; exact absurd h (by simp)
    | ok n =>
      rw [hv] at h
      simp only at h
      exact scalarSerialize_length s.wrapperType n bytes h

/-- C2 witness: the size law applied at concrete instances of every codec
with a hypothesis -- `SUInt8.of(37)`, a dynamic buffer of 3 bytes behind a
16-bit prefix, a two-element array, a one-field record, and the
`r=g=b=1` bitmask. -/
theorem serialized_length_consistency_witness :
    ([37].length = scalarGetSerializedLength SUInt8) ∧
    ([0, 3, 9, 9, 9].length = sDynamicBufferGetSerializedLength SUInt16BE ⟨[9, 9, 9]⟩) ∧
    ((SArray.of [Elem.scalar SUInt16BE 300, .scalar SInt8 (-2)]) =
        SArray.of [Elem.scalar SUInt16BE 300, .scalar SInt8 (-2)] ∧
      sArrayGetSerializedLengthS (SArray.of [Elem.scalar SUInt16BE 300, .scalar SInt8 (-2)]) =
        .ok ([1, 44, 254].length, SArray.of [Elem.scalar SUInt16BE 300, .scalar SInt8 (-2)])) ∧
    (sObjectGetSerializedLength ⟨[⟨"prop1", some SUInt16BE⟩], [("prop1", .pInt 3)]⟩ =
      .ok ([0, 3].length)) ∧
    ([37].length = sBitmaskGetSerializedLength (Color8Bit 1 1 1)) :=
  ⟨serialized_length_consistency.1 SUInt8 37 [37] rfl,
   serialized_length_consistency.2.2.2.2.1 SUInt16BE ⟨[9, 9, 9]⟩ [0, 3, 9, 9, 9] rfl,
   serialized_length_consistency.2.2.2.2.2.1
     (SArray.of [Elem.scalar SUInt16BE 300, .scalar SInt8 (-2)]) [1, 44, 254] _ rfl,
   serialized_length_consistency.2.2.2.2.2.2.1
     ⟨[⟨"prop1", some SUInt16BE⟩], [("prop1", .pInt 3)]⟩ [0, 3] rfl,
   serialized_length_consistency.2.2.2.2.2.2.2 (Color8Bit 1 1 1) [37] rfl⟩

/-- A byte list without zero bytes followed by a zero has its first zero
exactly at the list's length. -/
theorem firstZeroIdx_append_zero (v rest : List Nat) (h : ¬ 0 ∈ v) :
    firstZeroIdx (v ++ 0 :: rest) = v.length := by
  induction v with
  | nil => rfl
  | cons b tail ih =>
    unfold firstZeroIdx
    simp only [List.cons_append]
    rw [if_neg (by simp at h; omega)]
    rw [ih (by simp at h; exact fun hm => h.2 hm)]
    rfl

/-- C1 counterexample: `SString.ofLength(3)` holding the one-byte value
`[97]` ("a" -- it fits within the declared bound, no truncation needed)
serializes to `[97, 0, 0]`; a fresh instance deserializing that buffer
stores `[97, 0, 0]`, which is not JSON-equal to `[97]`: the fixed-size
zero padding is decoded as literal trailing content. -/
theorem codec_roundtrip_counterexample :
    sStringSerialize ⟨[97], some 3⟩ = [97, 0, 0] ∧
    (sStringDeserialize ⟨[], some 3⟩ (sStringSerialize ⟨[97], some 3⟩)).1.value = [97, 0, 0] ∧
    ([97, 0, 0] : List Nat) ≠ [97] :=
  ⟨rfl, rfl, by decide⟩

/-- Dynamic `SStringNT` round trip: values without embedded zero bytes are
recovered, consuming the content plus the terminator. -/
theorem sStringNT_roundtrip_dynamic (v : List Nat) (h : ¬ 0 ∈ v) :
    sStringNTDeserialize ⟨[], none⟩ (sStringNTSerialize ⟨v, none⟩) = (⟨v, none⟩, v.length + 1) := by
  unfold sStringNTSerialize sStringNTDeserialize
  norm_num
  have hz : firstZeroIdx (v ++ [0]) = v.length := firstZeroIdx_append_zero v [] h
  rw [hz, List.take_left v [0]]
  exact ⟨rfl, rfl⟩

/-- Fixed `SStringNT.ofLength(N)` round trip: values without embedded zero
bytes whose encoded form fits in `N - 1` bytes are recovered, consuming
exactly `N` bytes. -/
theorem sStringNT_roundtrip_fixed (N : Nat) (v : List Nat) (hN : 0 < N)
    (hlen : v.length ≤ N - 1) (h : ¬ 0 ∈ v) :
    sStringNTDeserialize ⟨[], some N⟩ (sStringNTSerialize ⟨v, some N⟩) = (⟨v, some N⟩, N) := by
  unfold sStringNTSerialize sStringNTDeserialize
  rw [if_pos (by simp; omega), if_pos (by simp; omega)]
  simp only [Option.getD_some]
  have ht : v.take (N - 1) = v := List.take_of_length_le hlen
  rw [ht]
  have hout : (v ++ 0 :: List.replicate (N - v.length - 1) 0).length = N := by
    simp only [List.length_append, List.length_cons, List.length_replicate]
    omega
  have hwin : (v ++ 0 :: List.replicate (N - v.length - 1) 0).take N =
      v ++ 0 :: List.replicate (N - v.length - 1) 0 :=
    List.take_of_length_le (by omega)
  rw [hwin]
  have hz : firstZeroIdx (v ++ 0 :: List.replicate (N - v.length - 1) 0) = v.length :=
    firstZeroIdx_append_zero v _ h
  rw [hz, List.take_left v (0 :: List.replicate (N - v.length - 1) 0), hout]

/-- Dynamic `SString` round trip: the whole buffer is the value. -/
theorem sString_roundtrip_dynamic (v : List Nat) :
    sStringDeserialize ⟨[], none⟩ (sStringSerialize ⟨v, none⟩) = (⟨v, none⟩, v.length) := rfl

/-- Fixed `SString.ofLength(N)` round trip: values whose encoded form has
exactly `N` bytes are recovered, consuming exactly `N` bytes. -/
theorem sString_roundtrip_fixed (N : Nat) (v : List Nat) (hN : 0 < N)
    (hlen : v.length = N) :
    sStringDeserialize ⟨[], some N⟩ (sStringSerialize ⟨v, some N⟩) = (⟨v, some N⟩, N) := by
  unfold sStringSerialize sStringDeserialize
  rw [if_pos (by simp; omega), if_pos (by simp; omega)]
  simp only [Option.getD_some]
  have ht : v.take N = v := List.take_of_length_le (by omega)
  rw [ht, show N - v.length = 0 from by omega]
  simp only [List.replicate_zero, List.append_nil]
  rw [ht, hlen]

/-- `SDynamicBuffer` round trip: a blob whose length the prefix codec can
represent is recovered, consuming the whole serialized output. -/
theorem sDynamicBuffer_roundtrip (lengthType : ScalarSpec) (v bytes : List Nat)
    (hw : 0 < lengthType.serializedLength)
    (h : sDynamicBufferSerialize lengthType ⟨v⟩ = .ok bytes) :
    sDynamicBufferDeserialize lengthType bytes = .ok (⟨v⟩, bytes.length) := by
  unfold sDynamicBufferSerialize at h
  cases hl : scalarSerialize lengthType (v.length : Int) with
  | error err => rw [hl] at h; exact absurd h (by simp)
  | ok lengthBytes =>
    rw [hl] at h
    simp only [Except.ok.injEq] at h
    have hrt := scalarDeserialize_scalarSerialize lengthType (v.length : Int)
      lengthBytes v hw hl
    have hlb := scalarSerialize_length lengthType (v.length : Int) lengthBytes hl
    unfold sDynamicBufferDeserialize
    rw [← h, hrt]
    simp only [Int.toNat_natCast]
    rw [← hlb, List.drop_left, List.take_length, List.length_append]

/-- Elementwise round trip through the array loops: serializing a list of
scalar wrapper elements and then deserializing the produced bytes into
same-spec default elements recovers the original values, consuming
exactly the produced bytes.  `pre` is the already-consumed front of the
buffer. -/
theorem sArrayGo_roundtrip (fields : List (ScalarSpec × Int)) (pre : List Nat)
    (chunks : List (List Nat)) (i : Nat)
    (hw : ∀ f ∈ fields, 0 < f.1.serializedLength)
    (h : mapSArrayGo (fun e _ => elemSerialize e)
      (fields.map (fun f => Elem.scalar f.1 f.2)) i = .ok chunks) :
    sArrayDeserializeGo (fields.map (fun f => Elem.scalar f.1 0))
        (pre ++ chunks.flatten) pre.length i =
      .ok (fields.map (fun f => Elem.scalar f.1 f.2),
        pre.length + chunks.flatten.length) := by
  induction fields generalizing pre chunks i with
  | nil =>
    simp only [List.map_nil] at h ⊢
    unfold mapSArrayGo at h
    simp only [Except.ok.injEq] at h
    unfold sArrayDeserializeGo
    rw [← h]
    simp
  | cons f rest ih =>
    simp only [List.map_cons] at h ⊢
    unfold mapSArrayGo at h
    cases hs : elemSerialize (Elem.scalar f.1 f.2) with
    | error err => rw [hs] at h; exact absurd h (by simp)
    | ok b =>
      simp only [hs] at h
      cases hrec : mapSArrayGo (fun e _ => elemSerialize e)
          (rest.map (fun f => Elem.scalar f.1 f.2)) (i + 1) with
      | error err => simp only [hrec] at h; exact absurd h (by simp)
      | ok chunksRest =>
        simp only [hrec, Except.ok.injEq] at h
        have hwf : 0 < f.1.serializedLength := hw f (by simp)
        have hsd : scalarDeserialize f.1 (b ++ chunksRest.flatten) =
            .ok (f.2, f.1.serializedLength) :=
          scalarDeserialize_scalarSerialize f.1 f.2 b chunksRest.flatten hwf
            (by simpa [elemSerialize] using hs)
        have hblen : b.length = f.1.serializedLength :=
          scalarSerialize_length f.1 f.2 b (by simpa [elemSerialize] using hs)
        unfold sArrayDeserializeGo
        rw [← h]
        have hdrop : (pre ++ (b :: chunksRest).flatten).drop pre.length =
            b ++ chunksRest.flatten := by
          rw [List.flatten_cons, List.drop_left]
        rw [hdrop]
        simp only [elemDeserialize, hsd]
        have hbuf : pre ++ (b :: chunksRest).flatten = (pre ++ b) ++ chunksRest.flatten := by
          rw [List.flatten_cons, List.append_assoc]
        have hoff : pre.length + f.1.serializedLength = (pre ++ b).length := by
          rw [List.length_append, hblen]
        rw [hbuf, hoff, ih (pre ++ b) chunksRest (i + 1) (fun g hg => hw g (by simp [hg])) hrec]
        simp only [Except.ok.injEq, Prod.mk.injEq, true_and]
        rw [List.flatten_cons, List.length_append, List.length_append, hblen]
        omega

/-- Looking up the key just written finds the written value. -/
theorem find_updateOrAppend_same {β : Type} (l : List (String × β)) (key : String) (v : β) :
    (updateOrAppend l key v).find? (fun p => p.1 = key) = some (key, v) := by
  unfold updateOrAppend
  split
  · next hany =>
    induction l with
    | nil => simp at hany
    | cons p tail ih =>
      by_cases hp : p.1 = key
      · simp only [List.map_cons, if_pos hp]
        rw [List.find?_cons_of_pos _ (by simp)]
      · simp only [List.map_cons, if_neg hp]
        rw [List.find?_cons_of_neg _ (by simpa using hp)]
        exact ih (by simpa [hp] using hany)
  · next hany =>
    induction l with
    | nil => simp [List.find?_cons_of_pos]
    | cons p tail ih =>
      have hp : ¬ p.1 = key := by
        intro hc
        exact hany (by simp [List.any_cons, hc])
      simp only [List.cons_append]
      rw [List.find?_cons_of_neg _ (by simpa using hp)]
      exact ih (by intro hc; exact hany (by simp [List.any_cons]; right; simpa using hc))

/-- Mapping the overwrite substitution over a list leaves lookups of
other keys unchanged. -/
theorem find_map_update_other {β : Type} (l : List (String × β)) (key : String) (v : β)
    (key2 : String) (h : key ≠ key2) :
    (l.map (fun p => if p.1 = key then (key, v) else p)).find? (fun p => p.1 = key2) =
      l.find? (fun p => p.1 = key2) := by
  induction l with
  | nil => rfl
  | cons p tail ih =>
    by_cases hp : p.1 = key
    · simp only [List.map_cons, if_pos hp]
      rw [List.find?_cons_of_neg _ (by simpa using h),
        List.find?_cons_of_neg _ (by rw [hp]; simpa using h)]
      exact ih
    · simp only [List.map_cons, if_neg hp]
      by_cases hp2 : p.1 = key2
      · rw [List.find?_cons_of_pos _ (by simpa using hp2),
          List.find?_cons_of_pos _ (by simpa using hp2)]
      · rw [List.find?_cons_of_neg _ (by simpa using hp2),
          List.find?_cons_of_neg _ (by simpa using hp2)]
        exact ih

/-- Appending an entry for one key leaves lookups of other keys
unchanged when the other key is not the appended one. -/
theorem find_append_single_other {β : Type} (l : List (String × β)) (key : String) (v : β)
    (key2 : String) (h : key ≠ key2) :
    (l ++ [(key, v)]).find? (fun p => p.1 = key2) = l.find? (fun p => p.1 = key2) := by
  induction l with
  | nil =>
    simp only [List.nil_append]
    rw [List.find?_cons_of_neg _ (by simpa using h)]
  | cons p tail ih =>
    by_cases hp2 : p.1 = key2
    · simp only [List.cons_append]
      rw [List.find?_cons_of_pos _ (by simpa using hp2),
        List.find?_cons_of_pos _ (by simpa using hp2)]
    · simp only [List.cons_append]
      rw [List.find?_cons_of_neg _ (by simpa using hp2),
        List.find?_cons_of_neg _ (by simpa using hp2)]
      exact ih

/-- Writing one key leaves lookups of other keys unchanged. -/
theorem find_updateOrAppend_other {β : Type} (l : List (String × β)) (key : String) (v : β)
    (key2 : String) (h : key ≠ key2) :
    (updateOrAppend l key v).find? (fun p => p.1 = key2) = l.find? (fun p => p.1 = key2) := by
  unfold updateOrAppend
  split
  · exact find_map_update_other l key v key2 h
  · exact find_append_single_other l key v key2 h

/-- In a keyed list with pairwise-distinct keys, looking up the key of the
`j`-th entry finds exactly the `j`-th entry. -/
theorem find_key_get {β : Type} (l : List (String × β)) (j : Nat) (hj : j < l.length)
    (hnodup : (l.map Prod.fst).Nodup) :
    l.find? (fun p => p.1 = (l.get ⟨j, hj⟩).1) = some (l.get ⟨j, hj⟩) := by
  induction l generalizing j with
  | nil => exact absurd hj (by simp)
  | cons p tail ih =>
    simp only [List.map_cons, List.nodup_cons] at hnodup
    cases j with
    | zero =>
      rw [List.find?_cons_of_pos _ (by simp)]
      rfl
    | succ j =>
      have hj2 : j < tail.length := by simpa using hj
      have hkey : (tail.get ⟨j, hj2⟩).1 ∈ tail.map Prod.fst :=
        List.mem_map_of_mem Prod.fst (tail.get_mem _ _)
      have hne : ¬ p.1 = (tail.get ⟨j, hj2⟩).1 := fun hc => hnodup.1 (hc ▸ hkey)
      rw [List.find?_cons_of_neg _ (by simpa using hne)]
      exact ih j hj2 hnodup.2

theorem getProp_setProp_same (s : SObjectState) (key : String) (v : PropValue) :
    getProp (setProp s key v) key = v := by
  unfold getProp setProp
  rw [find_updateOrAppend_same]
  rfl

theorem getProp_setProp_other (s : SObjectState) (key : String) (v : PropValue)
    (key2 : String) (h : key ≠ key2) : getProp (setProp s key v) key2 = getProp s key2 := by
  unfold getProp setProp
  rw [find_updateOrAppend_other s.props key v key2 h]

/-- With distinct keys, reading the key of the `j`-th property yields the
`j`-th property's value. -/
theorem getProp_of_nodup (s : SObjectState) (j : Nat) (hj : j < s.props.length)
    (hnodup : (s.props.map Prod.fst).Nodup) :
    getProp s (s.props.get ⟨j, hj⟩).1 = (s.props.get ⟨j, hj⟩).2 := by
  unfold getProp
  rw [find_key_get s.props j hj hnodup]
  rfl

/-- The property value the deserialize copy-back writes for a field: the
decoded wrapper's plain value for wrapped fields, the decoded element
itself (mutated in place by the array) for plain fields. -/
def assignedProp (fs : SObjectFieldSpec) (e : Elem) : PropValue :=
  match fs.wrapperType with
  | some _ => .pInt (elemValue e)
  | none => .pSer e

theorem sObjectCopyBack_step (s : SObjectState) (fs : SObjectFieldSpec)
    (restSpecs : List SObjectFieldSpec) (e : Elem) (restElems : List Elem) :
    sObjectCopyBack s (fs :: restSpecs) (e :: restElems) =
      sObjectCopyBack (setProp s fs.propertyKey (assignedProp fs e)) restSpecs restElems := by
  cases hw : fs.wrapperType <;> simp [sObjectCopyBack, assignedProp, hw]

/-- Copy-back never touches keys that name no field. -/
theorem sObjectCopyBack_getProp_untouched (specs : List SObjectFieldSpec)
    (elems : List Elem) (s : SObjectState) (key : String)
    (h : ∀ fs ∈ specs, fs.propertyKey ≠ key) :
    getProp (sObjectCopyBack s specs elems) key = getProp s key := by
  induction specs generalizing s elems with
  | nil => cases elems <;> rfl
  | cons fs rest ih =>
    cases elems with
    | nil => rfl
    | cons e erest =>
      rw [sObjectCopyBack_step]
      rw [ih erest _ (fun g hg => h g (by simp [hg]))]
      exact getProp_setProp_other s fs.propertyKey _ key (h fs (by simp))

/-- Copy-back writes each field's decoded value, with distinct field
names. -/
theorem sObjectCopyBack_getProp (specs : List SObjectFieldSpec) (elems : List Elem)
    (s : SObjectState) (hnodup : (specs.map (fun fs => fs.propertyKey)).Nodup)
    (j : Nat) (hj : j < specs.length) (hje : j < elems.length) :
    getProp (sObjectCopyBack s specs elems) (specs.get ⟨j, hj⟩).propertyKey =
      assignedProp (specs.get ⟨j, hj⟩) (elems.get ⟨j, hje⟩) := by
  induction specs generalizing s elems j with
  | nil => exact absurd hj (by simp)
  | cons fs rest ih =>
    cases elems with
    | nil => exact absurd hje (by simp)
    | cons e erest =>
      simp only [List.map_cons, List.nodup_cons] at hnodup
      rw [sObjectCopyBack_step]
      cases j with
      | zero =>
        have huntouched : ∀ g ∈ rest, g.propertyKey ≠ fs.propertyKey := by
          intro g hg hc
          exact hnodup.1 (hc ▸ List.mem_map_of_mem (fun fs => fs.propertyKey) hg)
        show getProp (sObjectCopyBack (setProp s fs.propertyKey (assignedProp fs e)) rest erest)
          fs.propertyKey = assignedProp fs e
        rw [sObjectCopyBack_getProp_untouched rest erest _ fs.propertyKey huntouched]
        exact getProp_setProp_same s fs.propertyKey (assignedProp fs e)
      | succ j =>
        exact ih erest _ hnodup.2 j (by simpa using hj) (by simpa using hje)

/-- An `SObject` whose fields are all registered with scalar wrappers:
field `f` has name `f.1`, wrapper spec `f.2.1` and plain value `f.2.2`. -/
def mkWrappedObject (fields : List (String × ScalarSpec × Int)) : SObjectState :=
  ⟨fields.map (fun f => ⟨f.1, some f.2.1⟩), fields.map (fun f => (f.1, .pInt f.2.2))⟩

/-- The field `Serializable`s of a wrapped-field record are freshly built
wrappers holding the current plain values. -/
theorem sObjectToSArray_wrapped (fields : List (String × ScalarSpec × Int))
    (hnodup : (fields.map Prod.fst).Nodup) :
    (sObjectToSArray (mkWrappedObject fields)).value =
      fields.map (fun f => Elem.scalar f.2.1 f.2.2) := by
  have hpn : ((mkWrappedObject fields).props.map Prod.fst).Nodup := by
    unfold mkWrappedObject
    simp only [List.map_map]
    exact hnodup
  have hgp : ∀ (j : Nat) (hj : j < fields.length),
      getProp (mkWrappedObject fields) (fields.get ⟨j, hj⟩).1 =
        .pInt (fields.get ⟨j, hj⟩).2.2 := by
    intro j hj
    have hjp : j < (mkWrappedObject fields).props.length := by
      simp [mkWrappedObject]
      omega
    have h0 := getProp_of_nodup (mkWrappedObject fields) j hjp hpn
    have hpg : (mkWrappedObject fields).props.get ⟨j, hjp⟩ =
        ((fields.get ⟨j, hj⟩).1, .pInt (fields.get ⟨j, hj⟩).2.2) := by
      simp [mkWrappedObject]
    rw [hpg] at h0
    exact h0
  show (mkWrappedObject fields).fieldSpecs.map (getFieldOrWrapper (mkWrappedObject fields)) =
    fields.map (fun f => Elem.scalar f.2.1 f.2.2)
  apply List.ext_get (by simp [mkWrappedObject])
  intro j h1 h2
  have hj : j < fields.length := by simpa using h2
  have hs1 : (mkWrappedObject fields).fieldSpecs.get
      ⟨j, by simpa [mkWrappedObject] using hj⟩ =
      ⟨(fields.get ⟨j, hj⟩).1, some (fields.get ⟨j, hj⟩).2.1⟩ := by
    simp [mkWrappedObject]
  rw [List.get_map, List.get_map, hs1]
  unfold getFieldOrWrapper
  simp only
  rw [hgp j hj]
  rfl

/-- Round trip for a record whose fields are all scalar-wrapped: a
successful serialize followed by a deserialize into a fresh instance
(same registered fields, zero-initialized properties) restores every
field's plain value and consumes the whole produced buffer. -/
theorem sObject_wrapped_roundtrip (fields : List (String × ScalarSpec × Int))
    (bytes : List Nat)
    (hnodup : (fields.map Prod.fst).Nodup)
    (hw : ∀ f ∈ fields, 0 < f.2.1.serializedLength)
    (h : sObjectSerialize (mkWrappedObject fields) = .ok bytes) :
    ∃ s2, sObjectDeserialize (mkWrappedObject (fields.map (fun f => (f.1, f.2.1, 0)))) bytes =
      .ok (s2, bytes.length) ∧
      ∀ (j : Nat) (hj : j < fields.length),
        getProp s2 (fields.get ⟨j, hj⟩).1 = .pInt (fields.get ⟨j, hj⟩).2.2 := by
  have hnodup0 : ((fields.map (fun f => (f.1, f.2.1, (0 : Int)))).map Prod.fst).Nodup := by
    rw [List.map_map]
    exact hnodup
  have helems : (sObjectToSArray (mkWrappedObject fields)).value =
      fields.map (fun f => Elem.scalar f.2.1 f.2.2) := sObjectToSArray_wrapped fields hnodup
  have helems0 : (sObjectToSArray (mkWrappedObject
        (fields.map (fun f => (f.1, f.2.1, (0 : Int)))))).value =
      fields.map (fun f => Elem.scalar f.2.1 0) := by
    rw [sObjectToSArray_wrapped _ hnodup0, List.map_map]
    rfl
  unfold sObjectSerialize at h
  cases hsa : sArraySerialize (sObjectToSArray (mkWrappedObject fields)) with
  | error err => rw [hsa] at h; exact absurd h (by simp)
  | ok b =>
    rw [hsa] at h
    simp only [Except.ok.injEq] at h
    unfold sArraySerialize at hsa
    rw [show sArrayView (sObjectToSArray (mkWrappedObject fields)) =
      fields.map (fun f => Elem.scalar f.2.1 f.2.2) from helems] at hsa
    cases hmap : mapSArrayGo (fun e _ => elemSerialize e)
        (fields.map (fun f => Elem.scalar f.2.1 f.2.2)) 0 with
    | error err => rw [hmap] at hsa; exact absurd hsa (by simp)
    | ok chunks =>
      rw [hmap] at hsa
      simp only [Except.ok.injEq] at hsa
      have hgo := sArrayGo_roundtrip (fields.map (fun f => (f.2.1, f.2.2))) [] chunks 0
        (by
          intro p hp
          obtain ⟨f, hf, hfp⟩ := List.mem_map.mp hp
          rw [← hfp]
          exact hw f hf)
        (by
          rw [List.map_map]
          exact hmap)
      have hgo2 : sArrayDeserializeGo (fields.map (fun f => Elem.scalar f.2.1 0))
          chunks.flatten 0 0 =
          .ok (fields.map (fun f => Elem.scalar f.2.1 f.2.2), chunks.flatten.length) := by
        simpa [List.map_map, Function.comp] using hgo
      unfold sObjectDeserialize
      unfold sArrayDeserialize
      rw [show sArrayView (sObjectToSArray (mkWrappedObject
          (fields.map (fun f => (f.1, f.2.1, (0 : Int)))))) =
        fields.map (fun f => Elem.scalar f.2.1 0) from helems0]
      rw [← h, ← hsa, hgo2]
      simp only
      have hdrop : (sObjectToSArray (mkWrappedObject
          (fields.map (fun f => (f.1, f.2.1, (0 : Int)))))).value.drop
            (fields.map (fun f => Elem.scalar f.2.1 f.2.2)).length = [] := by
        rw [helems0]
        simp
      rw [hdrop, List.append_nil]
      refine ⟨_, rfl, ?_⟩
      intro j hj
      -- the copy-back writes each decoded wrapper's value into its field
      have hspecs : (mkWrappedObject (fields.map (fun f => (f.1, f.2.1, (0 : Int))))).fieldSpecs =
          fields.map (fun f => ⟨f.1, some f.2.1⟩) := by
        unfold mkWrappedObject
        rw [List.map_map]
        rfl
      have hsn : ((mkWrappedObject (fields.map (fun f =>
          (f.1, f.2.1, (0 : Int))))).fieldSpecs.map (fun fs => fs.propertyKey)).Nodup := by
        rw [hspecs, List.map_map]
        exact hnodup
      have hjs : j < (mkWrappedObject (fields.map (fun f =>
          (f.1, f.2.1, (0 : Int))))).fieldSpecs.length := by
        rw [hspecs]
        simpa using hj
      have hje : j < (fields.map (fun f => Elem.scalar f.2.1 f.2.2)).length := by
        simpa using hj
      have hcb := sObjectCopyBack_getProp
        (mkWrappedObject (fields.map (fun f => (f.1, f.2.1, (0 : Int))))).fieldSpecs
        (fields.map (fun f => Elem.scalar f.2.1 f.2.2))
        (mkWrappedObject (fields.map (fun f => (f.1, f.2.1, (0 : Int)))))
        hsn j hjs hje
      have hsget : (mkWrappedObject (fields.map (fun f =>
          (f.1, f.2.1, (0 : Int))))).fieldSpecs.get ⟨j, hjs⟩ =
          ⟨(fields.get ⟨j, hj⟩).1, some (fields.get ⟨j, hj⟩).2.1⟩ := by
        rw [List.get_of_eq hspecs ⟨j, hjs⟩]
        simp
      have heget : (fields.map (fun f => Elem.scalar f.2.1 f.2.2)).get ⟨j, hje⟩ =
          Elem.scalar (fields.get ⟨j, hj⟩).2.1 (fields.get ⟨j, hj⟩).2.2 := by
        simp
      rw [hsget, heget] at hcb
      exact hcb

/-- The view of a fixed-length array holding exactly `N` elements is the
stored sequence itself. -/
theorem sArrayView_exact (N : Nat) (ty : ElemType) (l : List Elem) (h : l.length = N) :
    sArrayView (SArray.ofLengthOf N ty l) = l := by
  unfold sArrayView SArray.ofLengthOf
  simp only
  rw [if_neg (by omega), if_neg (by omega)]

/-- The view of a default-constructed fixed-length array instance is its
`N` default elements. -/
theorem sArrayView_ofLengthNew (N : Nat) (ty : ElemType) :
    sArrayView (SArray.ofLengthNew N ty) = List.replicate N (newElem ty) := by
  unfold sArrayView SArray.ofLengthNew
  simp only [List.length_replicate]
  rw [if_neg (by omega), if_neg (by omega)]

/-- Round trip for a fixed-length array holding exactly `N` scalar
wrapper elements: serializing and deserializing the produced buffer into
a fresh (default-constructed) instance restores the stored values and
consumes the whole buffer. -/
theorem sArray_fixed_scalar_roundtrip (sp : ScalarSpec) (values : List Int)
    (bytes : List Nat) (hw : 0 < sp.serializedLength)
    (h : sArraySerialize (SArray.ofLengthOf values.length (.scalarTy sp)
      (values.map (Elem.scalar sp))) = .ok bytes) :
    sArrayDeserialize (SArray.ofLengthNew values.length (.scalarTy sp)) bytes =
      .ok (SArray.ofLengthOf values.length (.scalarTy sp) (values.map (Elem.scalar sp)),
        bytes.length) := by
  unfold sArraySerialize at h
  rw [sArrayView_exact _ _ _ (by simp)] at h
  cases hmap : mapSArrayGo (fun e _ => elemSerialize e) (values.map (Elem.scalar sp)) 0 with
  | error err => rw [hmap] at h; exact absurd h (by simp)
  | ok chunks =>
    rw [hmap] at h
    simp only [Except.ok.injEq] at h
    have hgo := sArrayGo_roundtrip (values.map (fun v => (sp, v))) [] chunks 0
      (by
        intro p hp
        obtain ⟨v, hv, hvp⟩ := List.mem_map.mp hp
        rw [← hvp]
        exact hw)
      (by
        have : (values.map (fun v => (sp, v))).map (fun f => Elem.scalar f.1 f.2) =
            values.map (Elem.scalar sp) := by
          rw [List.map_map]
          rfl
        rw [this]
        exact hmap)
    have hgo2 : sArrayDeserializeGo (List.replicate values.length (Elem.scalar sp 0))
        chunks.flatten 0 0 =
        .ok (values.map (Elem.scalar sp), chunks.flatten.length) := by
      have hdef : (values.map (fun v => (sp, v))).map (fun f => Elem.scalar f.1 0) =
          List.replicate values.length (Elem.scalar sp 0) := by
        rw [List.map_map]
        exact List.map_const' values (Elem.scalar sp 0)
      have horig : (values.map (fun v => (sp, v))).map (fun f => Elem.scalar f.1 f.2) =
          values.map (Elem.scalar sp) := by
        rw [List.map_map]
        rfl
      rw [hdef, horig] at hgo
      simpa using hgo
    unfold sArrayDeserialize
    rw [sArrayView_ofLengthNew]
    rw [show newElem (ElemType.scalarTy sp) = Elem.scalar sp 0 from rfl, ← h, hgo2]
    simp only [Except.ok.injEq, Prod.mk.injEq]
    constructor
    · unfold SArray.ofLengthNew SArray.ofLengthOf
      simp
    · trivial

/-- The masked contribution of one bitfield: its value reduced modulo
`2 ^ length` (what `(v | 0) & (2 ^ length - 1)` computes). -/
def bvContrib (len : Nat) (bv : BitValue) : Nat :=
  ((bitValueToInt bv) % ((2 : Int) ^ len)).toNat

/-- Closed form of the packing fold, over the reversed field list paired
as (bit length, masked contribution): a mixed-radix little-endian
number. -/
def packedContribs : List (Nat × Nat) → Nat
  | [] => 0
  | (len, c) :: rest => c + 2 ^ len * packedContribs rest

/-- The default (class-initializer) value of a bitfield property, which
has the same runtime type as the current value. -/
def typeDefault : BitValue → BitValue
  | .bNum _ => .bNum 0
  | .bBool _ => .bBool false

/-- A bitfield value that needs no lossy masking: a number within the
field's bit range, or a boolean in a field at least one bit wide. -/
def inRangeBV : Nat → BitValue → Prop
  | len, .bNum v => 0 ≤ v ∧ v < 2 ^ len
  | len, .bBool b => b = true → 0 < len

theorem bvContrib_lt (len : Nat) (bv : BitValue) : bvContrib len bv < 2 ^ len :=
  emod_two_pow_toNat_lt _ len

theorem getBitProp_setBitProp_same (s : SBitmaskState) (key : String) (v : BitValue) :
    getBitProp (setBitProp s key v) key = some v := by
  unfold getBitProp setBitProp
  rw [find_updateOrAppend_same]
  rfl

theorem getBitProp_setBitProp_other (s : SBitmaskState) (key : String) (v : BitValue)
    (key2 : String) (h : key ≠ key2) :
    getBitProp (setBitProp s key v) key2 = getBitProp s key2 := by
  unfold getBitProp setBitProp
  rw [find_updateOrAppend_other s.props key v key2 h]

/-- In an association list built by pairing distinct keys with computed
values, looking up a member's key finds that member's value. -/
theorem find_map_assoc_of_mem {α β : Type} (g : α → String) (hval : α → β)
    (l : List α) (f : α) (hf : f ∈ l) (hnodup : (l.map g).Nodup) :
    (l.map (fun x => (g x, hval x))).find? (fun p => p.1 = g f) = some (g f, hval f) := by
  induction l with
  | nil => exact absurd hf (by simp)
  | cons f0 tail ih =>
    simp only [List.map_cons, List.nodup_cons] at hnodup
    rcases List.mem_cons.mp hf with hf0 | htail
    · rw [← hf0]
      simp only [List.map_cons]
      rw [List.find?_cons_of_pos _ (by simp)]
    · have hne : ¬ g f0 = g f := by
        intro hc
        exact hnodup.1 (hc ▸ List.mem_map_of_mem g htail)
      simp only [List.map_cons]
      rw [List.find?_cons_of_neg _ (by simpa using hne)]
      exact ih htail hnodup.2

/-- The packing loop of the bitmask `value` getter evaluates to the
mixed-radix closed form, shifted by the running offset. -/
theorem sBitmaskPackGo_closed (s : SBitmaskState) (flds : List (String × Nat × BitValue))
    (offset : Nat)
    (hp : ∀ f ∈ flds, getBitProp s f.1 = some f.2.2) :
    sBitmaskPackGo s (flds.map (fun f => (f.1, f.2.1))) offset =
      .ok (packedContribs (flds.map (fun f => (f.2.1, bvContrib f.2.1 f.2.2))) * 2 ^ offset) := by
  induction flds generalizing offset with
  | nil =>
    simp [sBitmaskPackGo, packedContribs]
  | cons f rest ih =>
    simp only [List.map_cons]
    unfold sBitmaskPackGo
    rw [hp f (by simp)]
    simp only
    rw [ih (offset + f.2.1) (fun g hg => hp g (by simp [hg]))]
    simp only [Except.ok.injEq]
    have hc : bvContrib f.2.1 f.2.2 < 2 ^ f.2.1 := bvContrib_lt _ _
    have hblt : bvContrib f.2.1 f.2.2 * 2 ^ offset < 2 ^ (offset + f.2.1) := by
      rw [pow_add]
      calc bvContrib f.2.1 f.2.2 * 2 ^ offset
          < 2 ^ f.2.1 * 2 ^ offset := by
            exact mul_lt_mul_of_pos_right hc (by positivity)
        _ = 2 ^ offset * 2 ^ f.2.1 := by ring
    have hlor := lor_eq_add_of_lt
      (packedContribs (rest.map (fun f => (f.2.1, bvContrib f.2.1 f.2.2))))
      (bvContrib f.2.1 f.2.2 * 2 ^ offset) (offset + f.2.1) hblt
    rw [Nat.shiftLeft_eq]
    have hfold : ((bitValueToInt f.2.2 % ((2 : Int)) ^ f.2.1).toNat) = bvContrib f.2.1 f.2.2 := rfl
    rw [hfold]
    have hlhs : packedContribs (rest.map (fun f => (f.2.1, bvContrib f.2.1 f.2.2))) *
        2 ^ (offset + f.2.1) =
        packedContribs (rest.map (fun f => (f.2.1, bvContrib f.2.1 f.2.2))) *
          2 ^ (offset + f.2.1) := rfl
    rw [show packedContribs (rest.map (fun f => (f.2.1, bvContrib f.2.1 f.2.2))) *
        2 ^ (offset + f.2.1) ||| bvContrib f.2.1 f.2.2 * 2 ^ offset =
      packedContribs (rest.map (fun f => (f.2.1, bvContrib f.2.1 f.2.2))) *
        2 ^ (offset + f.2.1) + bvContrib f.2.1 f.2.2 * 2 ^ offset from hlor]
    show _ = (bvContrib f.2.1 f.2.2 +
      2 ^ f.2.1 * packedContribs (rest.map (fun f => (f.2.1, bvContrib f.2.1 f.2.2)))) * 2 ^ offset
    rw [pow_add]
    ring

/-- The mixed-radix packed value fits in the sum of the field widths. -/
theorem packedContribs_lt (pairs : List (Nat × Nat))
    (hc : ∀ p ∈ pairs, p.2 < 2 ^ p.1) :
    packedContribs pairs < 2 ^ (pairs.map Prod.fst).sum := by
  induction pairs with
  | nil => simp [packedContribs]
  | cons p rest ih =>
    obtain ⟨len, c⟩ := p
    have hc0 : c < 2 ^ len := hc (len, c) (by simp)
    have hPC := ih (fun q hq => hc q (by simp [hq]))
    simp only [List.map_cons, List.sum_cons]
    unfold packedContribs
    calc c + 2 ^ len * packedContribs rest
        < 2 ^ len + 2 ^ len * packedContribs rest := by omega
      _ = 2 ^ len * (1 + packedContribs rest) := by ring
      _ ≤ 2 ^ len * 2 ^ (rest.map Prod.fst).sum := Nat.mul_le_mul_left _ (by omega)
      _ = 2 ^ (len + (rest.map Prod.fst).sum) := (pow_add 2 len _).symm

/-- Closed form of the unpacking loop of the bitmask `value` setter: fed a
mixed-radix packed value (plus arbitrary higher bits), it succeeds and
stores each field's bit slice, coerced to the runtime type of the property
it overwrites; properties outside the field list are untouched. -/
theorem sBitmaskSetGo_closed (flds : List (String × Nat × BitValue)) :
    ∀ (t : SBitmaskState) (offset n m : Nat),
      (∀ f ∈ flds, getBitProp t f.1 = some (typeDefault f.2.2)) →
      ((flds.map (fun f => f.1)).Nodup) →
      (n >>> offset =
        packedContribs (flds.map (fun f => (f.2.1, bvContrib f.2.1 f.2.2))) +
          2 ^ ((flds.map (fun f => f.2.1)).sum) * m) →
      ∃ t2,
        sBitmaskSetGo t (flds.map (fun f => (f.1, f.2.1))) offset n = .ok t2 ∧
        (∀ f ∈ flds, inRangeBV f.2.1 f.2.2 → getBitProp t2 f.1 = some f.2.2) ∧
        (∀ key, key ∉ flds.map (fun f => f.1) → getBitProp t2 key = getBitProp t key) ∧
        t2.bitfieldSpecs = t.bitfieldSpecs ∧ t2.wrapperType = t.wrapperType := by
  induction flds with
  | nil =>
    intro t offset n m _ _ _
    exact ⟨t, rfl, by simp, fun key _ => rfl, rfl, rfl⟩
  | cons f rest ih =>
    intro t offset n m hprops hnodup hn
    obtain ⟨key, len, val⟩ := f
    simp only [List.map_cons, List.nodup_cons] at hnodup
    have hget : getBitProp t key = some (typeDefault val) :=
      hprops (key, len, val) (by simp)
    have hc : bvContrib len val < 2 ^ len := bvContrib_lt _ _
    simp only [List.map_cons, List.sum_cons] at hn
    have hn' : n >>> offset = bvContrib len val +
        2 ^ len * (packedContribs (rest.map (fun f => (f.2.1, bvContrib f.2.1 f.2.2))) +
          2 ^ ((rest.map (fun f => f.2.1)).sum) * m) := by
      rw [hn]
      show bvContrib len val +
          2 ^ len * packedContribs (rest.map (fun f => (f.2.1, bvContrib f.2.1 f.2.2))) +
          2 ^ (len + (rest.map (fun f => f.2.1)).sum) * m = _
      rw [pow_add]
      ring
    have hslice : (n >>> offset) &&& (2 ^ len - 1) = bvContrib len val := by
      rw [Nat.and_pow_two_sub_one_eq_mod, hn', Nat.add_mul_mod_self_left,
        Nat.mod_eq_of_lt hc]
    have hshift : n >>> (offset + len) =
        packedContribs (rest.map (fun f => (f.2.1, bvContrib f.2.1 f.2.2))) +
          2 ^ ((rest.map (fun f => f.2.1)).sum) * m := by
      rw [Nat.shiftRight_add, Nat.shiftRight_eq_div_pow, hn',
        Nat.add_mul_div_left _ _ (by positivity : (0 : Nat) < 2 ^ len),
        Nat.div_eq_of_lt hc, zero_add]
    cases val with
    | bNum v =>
      obtain ⟨t2, hok, hflds, hout, hspecs, hwt⟩ :=
        ih (setBitProp t key (.bNum (((n >>> offset) &&& (2 ^ len - 1) : Nat) : Int)))
          (offset + len) n m
          (fun g hg => by
            rw [getBitProp_setBitProp_other t key _ g.1
              (fun hkey => hnodup.1 (by rw [hkey]; exact List.mem_map_of_mem _ hg))]
            exact hprops g (by simp [hg]))
          hnodup.2 hshift
      refine ⟨t2, ?_, ?_, ?_, hspecs.trans rfl, hwt.trans rfl⟩
      · simp only [List.map_cons]
        unfold sBitmaskSetGo
        simp only [hget, typeDefault]
        exact hok
      · intro g hg hrg
        rcases List.mem_cons.mp hg with hg0 | hgtail
        · subst hg0
          have hrg' : 0 ≤ v ∧ v < 2 ^ len := hrg
          rw [hout key hnodup.1, getBitProp_setBitProp_same, hslice]
          have hv : ((bvContrib len (BitValue.bNum v) : Nat) : Int) = v := by
            show (((v % ((2 : Int) ^ len)).toNat : Nat) : Int) = v
            rw [Int.emod_eq_of_lt hrg'.1 hrg'.2, Int.toNat_of_nonneg hrg'.1]
          rw [hv]
        · exact hflds g hgtail hrg
      · intro k2 hk2
        simp only [List.map_cons, List.mem_cons, not_or] at hk2
        rw [hout k2 hk2.2, getBitProp_setBitProp_other t key _ k2 (Ne.symm hk2.1)]
    | bBool b =>
      obtain ⟨t2, hok, hflds, hout, hspecs, hwt⟩ :=
        ih (setBitProp t key (.bBool (decide ((n >>> offset) &&& (2 ^ len - 1) ≠ 0))))
          (offset + len) n m
          (fun g hg => by
            rw [getBitProp_setBitProp_other t key _ g.1
              (fun hkey => hnodup.1 (by rw [hkey]; exact List.mem_map_of_mem _ hg))]
            exact hprops g (by simp [hg]))
          hnodup.2 hshift
      refine ⟨t2, ?_, ?_, ?_, hspecs.trans rfl, hwt.trans rfl⟩
      · simp only [List.map_cons]
        unfold sBitmaskSetGo
        simp only [hget, typeDefault]
        exact hok
      · intro g hg hrg
        rcases List.mem_cons.mp hg with hg0 | hgtail
        · subst hg0
          have hrg' : b = true → 0 < len := hrg
          rw [hout key hnodup.1, getBitProp_setBitProp_same, hslice]
          cases b with
          | true =>
            have hlen0 : 0 < len := hrg' rfl
            have h2le : (1 : Nat) < 2 ^ len := by
              calc (1 : Nat) < 2 ^ 1 := by norm_num
                _ ≤ 2 ^ len := Nat.pow_le_pow_right (by norm_num) hlen0
            have h1 : bvContrib len (BitValue.bBool true) = 1 := by
              show ((1 : Int) % ((2 : Int) ^ len)).toNat = 1
              rw [Int.emod_eq_of_lt (by norm_num) (by exact_mod_cast h2le)]
              rfl
            rw [h1]
            rfl
          | false =>
            have h0 : bvContrib len (BitValue.bBool false) = 0 := by
              show ((0 : Int) % ((2 : Int) ^ len)).toNat = 0
              rw [Int.zero_emod]
              rfl
            rw [h0]
            rfl
        · exact hflds g hgtail hrg
      · intro k2 hk2
        simp only [List.map_cons, List.mem_cons, not_or] at hk2
        rw [hout k2 hk2.2, getBitProp_setBitProp_other t key _ k2 (Ne.symm hk2.1)]

/-- Build an `SBitmask` instance: a storage codec, the bitfields declared
first-to-last with their widths, and properties holding the given
values. -/
def mkBitmask (wt : ScalarSpec) (flds : List (String × Nat × BitValue)) : SBitmaskState :=
  ⟨wt, flds.map (fun f => (f.1, f.2.1)), flds.map (fun f => (f.1, f.2.2))⟩

/-- Bitmask round trip: when the storage codec is narrower than 32 bits,
the bitfield widths fill the storage codec, the field names are distinct,
and every field value fits its declared width, a successful serialize
followed by a deserialize into a fresh (default-initialized) instance
restores every field and consumes the storage width.

The width bound `8 * serializedLength < 32` confines the statement to the
domain where the unbounded-natural model of the packing and unpacking
loops is exact: every intermediate of the JavaScript signed-32-bit
bitwise arithmetic then stays below `2^31`.  With 32-bit storage a packed
value with the top bit set wraps negative in the `value` getter and the
Node write primitive rejects it, so serialization itself fails there and
no round trip is asserted.  The hypothesis is not needed by the proof
over the model; it marks the statement's domain of fidelity to the
source. -/
theorem sBitmask_roundtrip (wt : ScalarSpec) (flds : List (String × Nat × BitValue))
    (bytes rest : List Nat)
    (hw : 0 < wt.serializedLength)
    (_h32 : 8 * wt.serializedLength < 32)
    (hlen : (flds.map (fun f => f.2.1)).sum = 8 * wt.serializedLength)
    (hnodup : (flds.map (fun f => f.1)).Nodup)
    (hrange : ∀ f ∈ flds, inRangeBV f.2.1 f.2.2)
    (hser : sBitmaskSerialize (mkBitmask wt flds) = .ok bytes) :
    ∃ t2,
      sBitmaskDeserialize (mkBitmask wt (flds.map (fun f => (f.1, f.2.1, typeDefault f.2.2))))
        (bytes ++ rest) = .ok (t2, wt.serializedLength) ∧
      ∀ f ∈ flds, getBitProp t2 f.1 = some f.2.2 := by
  have hvalidmk : ∀ (l : List (String × Nat × BitValue)),
      (l.map (fun f => f.2.1)).sum = 8 * wt.serializedLength →
      sBitmaskValidateLength (mkBitmask wt l) = true := by
    intro l hl
    unfold sBitmaskValidateLength
    rw [decide_eq_true_eq]
    show ((l.map (fun f => (f.1, f.2.1))).map Prod.snd).sum = 8 * wt.serializedLength
    rw [List.map_map]
    exact hl
  have hvalid2 : sBitmaskValidateLength
      (mkBitmask wt (flds.map (fun f => (f.1, f.2.1, typeDefault f.2.2)))) = true := by
    refine hvalidmk _ ?_
    rw [List.map_map]
    exact hlen
  have hgetprop_gen : ∀ (s : SBitmaskState) (vals : String × Nat × BitValue → BitValue),
      s.props = flds.map (fun x => (x.1, vals x)) →
      ∀ f ∈ flds, getBitProp s f.1 = some (vals f) := by
    intro s vals hp f hf
    unfold getBitProp
    rw [hp]
    have h := find_map_assoc_of_mem (fun f : String × Nat × BitValue => f.1) vals flds f hf
      hnodup
    simp only [h]
    rfl
  have hpropsfind : ∀ f ∈ flds.reverse, getBitProp (mkBitmask wt flds) f.1 = some f.2.2 := by
    intro f hf
    exact hgetprop_gen (mkBitmask wt flds) (fun f => f.2.2) rfl f (List.mem_reverse.mp hf)
  have hrevspecs : (mkBitmask wt flds).bitfieldSpecs.reverse =
      flds.reverse.map (fun f => (f.1, f.2.1)) := by
    show (flds.map (fun f => (f.1, f.2.1))).reverse = _
    rw [List.map_reverse]
  have hpack := sBitmaskPackGo_closed (mkBitmask wt flds) flds.reverse 0 hpropsfind
  have hGetValue : sBitmaskGetValue (mkBitmask wt flds) =
      .ok (packedContribs (flds.reverse.map (fun f => (f.2.1, bvContrib f.2.1 f.2.2)))) := by
    unfold sBitmaskGetValue
    rw [if_pos (hvalidmk flds hlen), hrevspecs, hpack, pow_zero, Nat.mul_one]
  have hser' : scalarSerialize wt
      ((packedContribs (flds.reverse.map (fun f => (f.2.1, bvContrib f.2.1 f.2.2))) : Nat) :
        Int) = .ok bytes := by
    unfold sBitmaskSerialize at hser
    rw [hGetValue] at hser
    exact hser
  have hdes := scalarDeserialize_scalarSerialize wt _ bytes rest hw hser'
  have hpropsT : ∀ f ∈ flds.reverse,
      getBitProp (mkBitmask wt (flds.map (fun f => (f.1, f.2.1, typeDefault f.2.2)))) f.1 =
        some (typeDefault f.2.2) := by
    intro f hf
    refine hgetprop_gen _ (fun f => typeDefault f.2.2) ?_ f (List.mem_reverse.mp hf)
    show ((flds.map (fun f => (f.1, f.2.1, typeDefault f.2.2))).map (fun f => (f.1, f.2.2))) =
      _
    rw [List.map_map]
    rfl
  have hspecsEq : (mkBitmask wt (flds.map (fun f => (f.1, f.2.1, typeDefault f.2.2)))).bitfieldSpecs =
      flds.map (fun f => (f.1, f.2.1)) := by
    show ((flds.map (fun f => (f.1, f.2.1, typeDefault f.2.2))).map (fun f => (f.1, f.2.1))) =
      _
    rw [List.map_map]
    rfl
  have hrev2 : (mkBitmask wt (flds.map (fun f => (f.1, f.2.1, typeDefault f.2.2)))).bitfieldSpecs.reverse =
      flds.reverse.map (fun f => (f.1, f.2.1)) := by
    rw [hspecsEq, ← List.map_reverse]
  obtain ⟨t2, hok, hvals, -, -, -⟩ := sBitmaskSetGo_closed flds.reverse
    (mkBitmask wt (flds.map (fun f => (f.1, f.2.1, typeDefault f.2.2)))) 0
    (packedContribs (flds.reverse.map (fun f => (f.2.1, bvContrib f.2.1 f.2.2)))) 0
    hpropsT
    (by
      rw [show (flds.reverse.map (fun f => f.1)) = (flds.map (fun f => f.1)).reverse from
        List.map_reverse _ _]
      exact List.nodup_reverse.mpr hnodup)
    (by rw [Nat.shiftRight_zero]; simp)
  have hstep2 : sBitmaskSetValue
      (mkBitmask wt (flds.map (fun f => (f.1, f.2.1, typeDefault f.2.2))))
      (packedContribs (flds.reverse.map (fun f => (f.2.1, bvContrib f.2.1 f.2.2)))) =
      .ok t2 := by
    unfold sBitmaskSetValue
    rw [if_pos hvalid2, hrev2]
    exact hok
  refine ⟨t2, ?_, ?_⟩
  · unfold sBitmaskDeserialize
    rw [show (mkBitmask wt (flds.map (fun f => (f.1, f.2.1, typeDefault f.2.2)))).wrapperType =
      wt from rfl]
    rw [hdes]
    simp only [Int.toNat_natCast]
    rw [hstep2]
  · intro f hf
    exact hvals f (List.mem_reverse.mpr hf) (hrange f hf)

/-- C1 (amended): round trips hold exactly when the serialized value fills
its declared bounds.  For every codec family of the library, a successful
`serialize` followed by `deserialize` into a fresh default-initialized
instance of the same class restores the original value and consumes the
whole produced output, under the exact-fit conditions: scalars whose
serialize succeeded; dynamic `SStringNT` values without embedded NUL
bytes; fixed `SStringNT.ofLength(N)` values without NULs that fit in
`N - 1` bytes; dynamic `SString` values unconditionally; fixed
`SString.ofLength(N)` values of exactly `N` bytes; `SBuffer` blobs
unconditionally; `SDynamicBuffer` blobs whose length prefix serialized;
fixed `SArray.ofLength(N)` holding exactly `N` scalar wrapper elements;
`SObject`s whose fields are distinctly named wrapped scalars; and
`SBitmask`s over storage narrower than 32 bits whose distinctly named
bitfields fill the storage codec and whose values fit their declared
widths.  The bitmask width bound marks where the unbounded-natural model
of the packing loops is exact: with 32-bit storage, JavaScript's
signed-32-bit `<<` can wrap a top-bit contribution negative and the Node
write primitive then throws, so serialization itself fails and no round
trip is asserted there.  (Under-filled fixed-size bounds decode their
padding as content instead: see the counterexample.) -/
theorem codec_roundtrip_on_exact_fit :
    (∀ (sp : ScalarSpec) (v : Int) (bytes rest : List Nat),
      0 < sp.serializedLength → scalarSerialize sp v = .ok bytes →
      scalarDeserialize sp (bytes ++ rest) = .ok (v, sp.serializedLength)) ∧
    (∀ v : List Nat, ¬ 0 ∈ v →
      sStringNTDeserialize ⟨[], none⟩ (sStringNTSerialize ⟨v, none⟩) =
        (⟨v, none⟩, v.length + 1)) ∧
    (∀ (N : Nat) (v : List Nat), 0 < N → v.length ≤ N - 1 → ¬ 0 ∈ v →
      sStringNTDeserialize ⟨[], some N⟩ (sStringNTSerialize ⟨v, some N⟩) = (⟨v, some N⟩, N)) ∧
    (∀ v : List Nat,
      sStringDeserialize ⟨[], none⟩ (sStringSerialize ⟨v, none⟩) = (⟨v, none⟩, v.length)) ∧
    (∀ (N : Nat) (v : List Nat), 0 < N → v.length = N →
      sStringDeserialize ⟨[], some N⟩ (sStringSerialize ⟨v, some N⟩) = (⟨v, some N⟩, N)) ∧
    (∀ v : List Nat, sBufferDeserialize ⟨[]⟩ (sBufferSerialize ⟨v⟩) = (⟨v⟩, v.length)) ∧
    (∀ (lengthType : ScalarSpec) (v bytes : List Nat), 0 < lengthType.serializedLength →
      sDynamicBufferSerialize lengthType ⟨v⟩ = .ok bytes →
      sDynamicBufferDeserialize lengthType bytes = .ok (⟨v⟩, bytes.length)) ∧
    (∀ (sp : ScalarSpec) (values : List Int) (bytes : List Nat), 0 < sp.serializedLength →
      sArraySerialize (SArray.ofLengthOf values.length (.scalarTy sp)
        (values.map (Elem.scalar sp))) = .ok bytes →
      sArrayDeserialize (SArray.ofLengthNew values.length (.scalarTy sp)) bytes =
        .ok (SArray.ofLengthOf values.length (.scalarTy sp) (values.map (Elem.scalar sp)),
          bytes.length)) ∧
    (∀ (fields : List (String × ScalarSpec × Int)) (bytes : List Nat),
      (fields.map Prod.fst).Nodup → (∀ f ∈ fields, 0 < f.2.1.serializedLength) →
      sObjectSerialize (mkWrappedObject fields) = .ok bytes →
      ∃ s2, sObjectDeserialize (mkWrappedObject (fields.map (fun f => (f.1, f.2.1, 0))))
          bytes = .ok (s2, bytes.length) ∧
        ∀ (j : Nat) (hj : j < fields.length),
          getProp s2 (fields.get ⟨j, hj⟩).1 = .pInt (fields.get ⟨j, hj⟩).2.2) ∧
    (∀ (wt : ScalarSpec) (flds : List (String × Nat × BitValue)) (bytes rest : List Nat),
      0 < wt.serializedLength → 8 * wt.serializedLength < 32 →
      (flds.map (fun f => f.2.1)).sum = 8 * wt.serializedLength →
      (flds.map (fun f => f.1)).Nodup → (∀ f ∈ flds, inRangeBV f.2.1 f.2.2) →
      sBitmaskSerialize (mkBitmask wt flds) = .ok bytes →
      ∃ t2, sBitmaskDeserialize
          (mkBitmask wt (flds.map (fun f => (f.1, f.2.1, typeDefault f.2.2))))
          (bytes ++ rest) = .ok (t2, wt.serializedLength) ∧
        ∀ f ∈ flds, getBitProp t2 f.1 = some f.2.2) :=
  ⟨scalarDeserialize_scalarSerialize,
   sStringNT_roundtrip_dynamic,
   sStringNT_roundtrip_fixed,
   sString_roundtrip_dynamic,
   sString_roundtrip_fixed,
   fun _ => rfl,
   sDynamicBuffer_roundtrip,
   sArray_fixed_scalar_roundtrip,
   sObject_wrapped_roundtrip,
   sBitmask_roundtrip⟩

/-- Concrete instantiation of every conjunct of the amended C1 round-trip
theorem: an `SUInt8` scalar, the strings "hi" under all four string
codecs, a three-byte `SBuffer`, an `SDynamicBuffer` with a one-byte
prefix, a two-element fixed array of `SUInt8`, a one-field wrapped
record, and the `r:3, g:3, b:2` one-byte bitmask set to `r=g=b=1`. -/
theorem codec_roundtrip_on_exact_fit_witness :
    scalarDeserialize SUInt8 [42] = .ok (42, 1) ∧
    sStringNTDeserialize ⟨[], none⟩ (sStringNTSerialize ⟨[104, 105], none⟩) =
      (⟨[104, 105], none⟩, 3) ∧
    sStringNTDeserialize ⟨[], some 4⟩ (sStringNTSerialize ⟨[104, 105], some 4⟩) =
      (⟨[104, 105], some 4⟩, 4) ∧
    sStringDeserialize ⟨[], none⟩ (sStringSerialize ⟨[104, 105], none⟩) =
      (⟨[104, 105], none⟩, 2) ∧
    sStringDeserialize ⟨[], some 2⟩ (sStringSerialize ⟨[104, 105], some 2⟩) =
      (⟨[104, 105], some 2⟩, 2) ∧
    sBufferDeserialize ⟨[]⟩ (sBufferSerialize ⟨[1, 2, 3]⟩) = (⟨[1, 2, 3]⟩, 3) ∧
    sDynamicBufferDeserialize SUInt8 [2, 9, 8] = .ok (⟨[9, 8]⟩, 3) ∧
    sArrayDeserialize (SArray.ofLengthNew 2 (.scalarTy SUInt8)) [7, 8] =
      .ok (SArray.ofLengthOf 2 (.scalarTy SUInt8) ([(7 : Int), 8].map (Elem.scalar SUInt8)),
        2) ∧
    (∃ s2, sObjectDeserialize (mkWrappedObject [("a", SUInt8, 0)]) [5] = .ok (s2, 1) ∧
      ∀ (j : Nat) (hj : j < [("a", SUInt8, (5 : Int))].length),
        getProp s2 ([("a", SUInt8, (5 : Int))].get ⟨j, hj⟩).1 =
          .pInt ([("a", SUInt8, (5 : Int))].get ⟨j, hj⟩).2.2) ∧
    (∃ t2, sBitmaskDeserialize
        (mkBitmask SUInt8 [("r", 3, .bNum 0), ("g", 3, .bNum 0), ("b", 2, .bNum 0)]) [37] =
        .ok (t2, 1) ∧
      ∀ f ∈ ([("r", 3, .bNum 1), ("g", 3, .bNum 1), ("b", 2, .bNum 1)] :
          List (String × Nat × BitValue)), getBitProp t2 f.1 = some f.2.2) :=
  ⟨codec_roundtrip_on_exact_fit.1 SUInt8 42 [42] [] (by decide) rfl,
   codec_roundtrip_on_exact_fit.2.1 [104, 105] (by decide),
   codec_roundtrip_on_exact_fit.2.2.1 4 [104, 105] (by norm_num) (by norm_num) (by decide),
   codec_roundtrip_on_exact_fit.2.2.2.1 [104, 105],
   codec_roundtrip_on_exact_fit.2.2.2.2.1 2 [104, 105] (by norm_num) (by norm_num),
   codec_roundtrip_on_exact_fit.2.2.2.2.2.1 [1, 2, 3],
   codec_roundtrip_on_exact_fit.2.2.2.2.2.2.1 SUInt8 [9, 8] [2, 9, 8] (by decide) rfl,
   codec_roundtrip_on_exact_fit.2.2.2.2.2.2.2.1 SUInt8 [7, 8] [7, 8] (by decide) rfl,
   codec_roundtrip_on_exact_fit.2.2.2.2.2.2.2.2.1 [("a", SUInt8, 5)] [5] (by decide)
     (by intro f hf; fin_cases hf; decide) rfl,
   codec_roundtrip_on_exact_fit.2.2.2.2.2.2.2.2.2
     SUInt8 [("r", 3, .bNum 1), ("g", 3, .bNum 1), ("b", 2, .bNum 1)] [37] []
     (by decide) (by decide) (by decide) (by decide)
     (by intro f hf; fin_cases hf <;> exact ⟨by norm_num, by norm_num⟩) rfl⟩

end Serio
